import Mathlib

/-!
Verification development for the FFCS timetable generation core
(src/utils/timetable_generator.py of mkp151203/ffcs-timetable-vitb).

The Python module is embedded shallowly:

* `Course`, `Slot`, `Faculty` rows (declared in the models package, whose
  slot module is not part of the sources at hand) are plain structures; the
  slot timing table `get_slot_timing` is an arbitrary function parameter
  `tt : String → Option Timing`, since the timing table is a static pure
  lookup (spec section 3).
* Stateful backtracking (selected list, occupied set, counters) becomes
  explicit state passing; the Python `set` of (day, period) keys becomes a
  list used only through membership.
* `random.shuffle` / `random.sample` outcomes are supplied as explicit
  inputs (permutations, candidate samples, per-attempt plans); every
  theorem quantifies over them, so it covers every possible random draw.
* Python floats are modelled as `Rat`: all score arithmetic in the module
  is on small integer-valued quantities plus exact divisions by list
  lengths, where exact rational arithmetic agrees with the intended values.
-/

/-- Modelled from the spec: the slot module with `get_slot_timing` is not in
the sources at hand; per spec section 3 a timing is a pure static pair of a
day (MON..SAT) and a period (1..7) assigned to an atomic cell code. -/
structure Timing where
  day : String
  period : Int
deriving DecidableEq, Repr

/-- The owning course as seen from a slot row (`slot.course` relationship):
identity, course code, name and credit count `c`. -/
structure CourseRef where
  id : Nat
  code : String
  name : String
  c : Nat
deriving DecidableEq, Repr

/-- A slot row: identity, composite slot code, venue, optional owning
course and optional faculty name (`slot.faculty.name`). -/
structure Slot where
  id : Nat
  slot_code : String
  venue : String
  course : Option CourseRef
  faculty : Option String
deriving DecidableEq, Repr

/-- The `course_id` column, derived from the course relationship. -/
def Slot.course_id (s : Slot) : Option Nat := s.course.map CourseRef.id

/-- A course together with its candidate slot rows (`course.slots.all()`). -/
structure Course where
  id : Nat
  code : String
  name : String
  c : Nat
  slots : List Slot
deriving DecidableEq, Repr

/-- One-pass split of a composite code on the delimiters used by the
module: this computes exactly `code.replace('/', '+').split('+')` (compare
the parsing in `count_distinct_solutions`), split at every occurrence,
keeping empty pieces, as Python `str.split` with an argument does. -/
def splitCode : List Char → List Char → List String
  | [], acc => [String.mk acc.reverse]
  | c :: rest, acc =>
    if c = '+' ∨ c = '/' then String.mk acc.reverse :: splitCode rest []
    else splitCode rest (c :: acc)

/-- Decomposition of a composite slot code into atomic cell codes
(spec section 4.1: split on + and /). -/
def decompose (code : String) : List String := splitCode code.data []

/-- Modelled from the spec: `Slot.get_individual_slots` lives in the slot
module, absent from the sources at hand; spec section 4.1 says it
deterministically decomposes the composite code on + and /. -/
def Slot.get_individual_slots (s : Slot) : List String := decompose s.slot_code

/-- The static `MUTUAL_EXCLUSION_GROUPS` constant. -/
def MUTUAL_EXCLUSION_GROUPS : List (List String × List String) :=
  [(["C11", "C12", "C13"], ["A21", "A22", "A23"])]

/-- Whether a cell-code list meets a group, i.e. Python
`not slots.isdisjoint(group)`. -/
def overlapsGroup (cells : List String) (group : List String) : Bool :=
  cells.any (fun s => group.contains s)

/-- `_check_clash`: mutual-exclusion groups first, then pairwise
(day, period) time overlap between resolvable atomic cells. -/
def check_clash (tt : String → Option Timing) (slot1 slot2 : Slot) : Bool :=
  let slots1 := slot1.get_individual_slots
  let slots2 := slot2.get_individual_slots
  (MUTUAL_EXCLUSION_GROUPS.any fun g =>
    (overlapsGroup slots1 g.1 && overlapsGroup slots2 g.2) ||
    (overlapsGroup slots1 g.2 && overlapsGroup slots2 g.1)) ||
  (slots1.any fun s1 => slots2.any fun s2 =>
    match tt s1, tt s2 with
    | some t1, some t2 => t1.day == t2.day && t1.period == t2.period
    | _, _ => false)

/-- `GenerationPreferences` with its documented defaults. -/
structure GenerationPreferences where
  avoid_early_morning : Bool := false
  avoid_late_evening : Bool := false
  time_mode : String := "none"
  prefer_morning : Bool := false
  prefer_afternoon : Bool := false
  max_gaps_per_day : Int := 2
  preferred_faculties : List String := []
  course_faculty_preferences : List (Nat × List String) := []
  avoided_faculties : List String := []
  exclude_slots : List String := []
deriving Repr

/-- `_should_exclude_slot`: avoided faculty, then any excluded cell code. -/
def should_exclude_slot (prefs : GenerationPreferences) (slot : Slot) : Bool :=
  (match slot.faculty with
   | some fname => prefs.avoided_faculties.contains fname
   | none => false) ||
  slot.get_individual_slots.any (fun s => prefs.exclude_slots.contains s)

/-- The per-course ranked faculty list; Python keys the dictionary by the
stringified course id, modelled with the numeric id directly (`str` is
injective on ids). Missing key gives `[]` (`dict.get(cid, [])`). -/
def lookupCoursePrefs (prefs : GenerationPreferences) (cid : Nat) : List String :=
  (prefs.course_faculty_preferences.lookup cid).getD []

/-- The `faculty_score` local of `_score_slot`: 1000/800/600 for ranks
0/1/2 of the preference list of the owning course, otherwise 0. The guard
mirrors Python truthiness of `course_faculty_preferences` and of
`slot.course_id` (an id of 0 is falsy). -/
def faculty_score (prefs : GenerationPreferences) (slot : Slot) : Rat :=
  if prefs.course_faculty_preferences.isEmpty then 0
  else
    match slot.course_id with
    | none => 0
    | some cid =>
      if cid = 0 then 0
      else
        let course_prefs := lookupCoursePrefs prefs cid
        match slot.faculty with
        | none => 0
        | some fname =>
          if course_prefs.contains fname then
            let rank := course_prefs.indexOf fname
            if rank = 0 then 1000
            else if rank = 1 then 800
            else if rank = 2 then 600
            else 0
          else 0

/-- The effective time mode after the backwards-compatibility mapping of
`prefer_morning` / `prefer_afternoon` when `time_mode` is `none`. -/
def effectiveTimeMode (prefs : GenerationPreferences) : String :=
  if prefs.time_mode == "none" then
    if prefs.prefer_morning then "morning"
    else if prefs.prefer_afternoon then "afternoon"
    else prefs.time_mode
  else prefs.time_mode

/-- The per-cell time score of `_score_slot`: -1000 for excluded cells or
avoided faculty, 0 under a matching soft-avoid flag, otherwise the
time-mode curve, defaulting to the neutral 50. -/
def cell_time_score (tt : String → Option Timing) (prefs : GenerationPreferences)
    (mode : String) (slot : Slot) (s : String) : Rat :=
  if prefs.exclude_slots.contains s then -1000
  else if (match slot.faculty with
           | some fname => prefs.avoided_faculties.contains fname
           | none => false) then -1000
  else
    match tt s with
    | none => 0
    | some t =>
      let period := t.period
      if prefs.avoid_early_morning && period == 1 then 0
      else if prefs.avoid_late_evening && period == 7 then 0
      else if mode == "morning" then ((max 0 (115 - 15 * period) : Int) : Rat)
      else if mode == "evening" || mode == "afternoon" then
        ((max 0 (10 + 15 * (period - 1)) : Int) : Rat)
      else if mode == "middle" then
        ((max 0 (100 - 30 * (period - 4).natAbs) : Int) : Rat)
      else 50

/-- The credit weight used by `_score_slot`: `slot.course.c` when the
course is present and its credit count is truthy, else 1. -/
def credit_weight (slot : Slot) : Rat :=
  match slot.course with
  | some c => if c.c ≠ 0 then (c.c : Rat) else 1
  | none => 1

/-- `_score_slot`: mean over the atomic cells of
(cell time score + faculty score), multiplied by the credit weight. -/
def score_slot (tt : String → Option Timing) (prefs : GenerationPreferences)
    (slot : Slot) : Rat :=
  let individual := slot.get_individual_slots
  if individual.isEmpty then 0
  else
    let fs := faculty_score prefs slot
    let mode := effectiveTimeMode prefs
    let total := (individual.map (fun s => cell_time_score tt prefs mode slot s + fs)).sum
    (total / (individual.length : Rat)) * credit_weight slot

/-- `_calculate_solution_total_score`: average of the slot scores of a full
timetable, 0 for the empty list; no gap or Saturday penalties. -/
def calculate_solution_total_score (tt : String → Option Timing)
    (prefs : GenerationPreferences) (slots : List Slot) : Rat :=
  if slots.isEmpty then 0
  else (slots.map (score_slot tt prefs)).sum / (slots.length : Rat)

/-- Append a period to the per-day association list, keyed by day in first
encounter order (Python dict insertion order). -/
def addDayPeriod : List (String × List Int) → String → Int → List (String × List Int)
  | [], day, p => [(day, [p])]
  | (d, ps) :: rest, day, p =>
    if d == day then (d, ps ++ [p]) :: rest
    else (d, ps) :: addDayPeriod rest day p

/-- The `day_periods` map of `_calculate_solution_score`: every resolvable
cell of every slot contributes its period to its day. -/
def day_periods (tt : String → Option Timing) (slots : List Slot) :
    List (String × List Int) :=
  slots.foldl (fun m slot =>
    slot.get_individual_slots.foldl (fun m s =>
      match tt s with
      | some t => addDayPeriod m t.day t.period
      | none => m) m) []

/-- Number of resolvable cells on SAT, as counted while building
`day_periods`. -/
def saturday_classes (tt : String → Option Timing) (slots : List Slot) : Nat :=
  slots.foldl (fun n slot =>
    slot.get_individual_slots.foldl (fun n s =>
      match tt s with
      | some t => if t.day == "SAT" then n + 1 else n
      | none => n) n) 0

/-- Insert an element before the first entry it compares `le` to; the
helper of the stable sort below. -/
def stableInsert (le : α → α → Bool) (x : α) : List α → List α
  | [] => [x]
  | y :: ys => if le x y then x :: y :: ys else y :: stableInsert le x ys

/-- Stable insertion sort. Python `list.sort` is a stable sort and a
output of a stable sort is uniquely determined by the ordering key, so this
models `list.sort(key=..., reverse=True)` exactly (with `le` the reversed
comparison for descending order). -/
def stableSortBy (le : α → α → Bool) : List α → List α
  | [] => []
  | x :: xs => stableInsert le x (stableSortBy le xs)

/-- Sum of positive gaps between consecutive entries of a sorted period
list. -/
def gapsOfSorted : List Int → Int
  | p1 :: p2 :: rest =>
    (if 0 < p2 - p1 - 1 then p2 - p1 - 1 else 0) + gapsOfSorted (p2 :: rest)
  | _ => 0

/-- Per-day gap count: periods sorted ascending, positive gaps summed. -/
def gapsOf (ps : List Int) : Int :=
  gapsOfSorted (stableSortBy (fun a b => decide (a ≤ b)) ps)

/-- Total gaps over all days. -/
def total_gaps (tt : String → Option Timing) (slots : List Slot) : Int :=
  ((day_periods tt slots).map (fun dp => gapsOf dp.2)).sum

/-- `_calculate_solution_score` (penalty-bearing variant): sum of slot
scores minus 2 per gap period and 3 per Saturday cell. The diagnostics
details dictionary is omitted: the spec marks it as not semantically
load-bearing and no property refers to it. -/
def calculate_solution_score (tt : String → Option Timing)
    (prefs : GenerationPreferences) (slots : List Slot) : Rat :=
  (slots.map (score_slot tt prefs)).sum
    - (total_gaps tt slots : Rat) * 2
    - (saturday_classes tt slots : Rat) * 3

/-- `TimetableSolution` (details diagnostics omitted, see
`calculate_solution_score`). -/
structure TimetableSolution where
  slots : List Slot
  score : Rat
  total_credits : Nat
deriving DecidableEq, Repr

/-- `sum(s.course.c for s in slots if s.course)`. -/
def totalCredits (slots : List Slot) : Nat :=
  (slots.map (fun s => match s.course with
    | some c => c.c
    | none => 0)).sum

/-- The candidate list of one course as built by `_build_slot_map`: filter by
`_should_exclude_slot` unless `ignore_preferences`, apply the shuffle
outcome (an arbitrary reordering supplied as `shuffle`), then unless
`randomize_only` stable-sort by score descending (Python `list.sort` with
a key and `reverse=True` is exactly a stable descending sort). -/
def build_course_slots (tt : String → Option Timing) (prefs : GenerationPreferences)
    (shuffle : List Slot → List Slot) (randomize_only ignore_preferences : Bool)
    (course : Course) : List Slot :=
  let slots := if ignore_preferences then course.slots
               else course.slots.filter (fun s => !should_exclude_slot prefs s)
  let slots := shuffle slots
  if randomize_only then slots
  else stableSortBy (fun a b => decide (score_slot tt prefs b ≤ score_slot tt prefs a)) slots

/-- The `slot_map` dictionary as a function of the course id; Python dict
assignment in course order means the last course with a given id wins, and
a missing id yields `[]` (`slot_map.get(cid, [])`). -/
def build_slot_map (tt : String → Option Timing) (prefs : GenerationPreferences)
    (shuffle : Nat → List Slot → List Slot) (randomize_only ignore_preferences : Bool)
    (courses : List Course) (cid : Nat) : List Slot :=
  match (courses.filter (fun c => c.id == cid)).getLast? with
  | some c => build_course_slots tt prefs (shuffle cid) randomize_only ignore_preferences c
  | none => []

/-- The (day, period) keys of the resolvable cells of a cell-code list. -/
def cellKeysL (tt : String → Option Timing) (parts : List String) :
    List (String × Int) :=
  parts.filterMap (fun s => (tt s).map (fun t => (t.day, t.period)))

/-- The occupied keys contributed by one slot. -/
def slotKeys (tt : String → Option Timing) (slot : Slot) : List (String × Int) :=
  cellKeysL tt slot.get_individual_slots

/-- The `new_occupied` loop shared by every search: walk the cells, fail as
soon as the (day, period) key of a resolvable cell is already occupied, else
collect the new keys (the Python set is modelled as a list used through
membership only). -/
def collectNewOccupied (tt : String → Option Timing)
    (occupied : List (String × Int)) : List String → Option (List (String × Int))
  | [] => some []
  | s :: rest =>
    match tt s with
    | some t =>
      if occupied.contains (t.day, t.period) then none
      else
        match collectNewOccupied tt occupied rest with
        | some acc => some ((t.day, t.period) :: acc)
        | none => none
    | none => collectNewOccupied tt occupied rest

/-- Whether a slot `_check_clash`-clashes with some already selected slot. -/
def clashesWithSelected (tt : String → Option Timing) (slot : Slot)
    (selected : List Slot) : Bool :=
  selected.any (fun existing => check_clash tt slot existing)

/-- The two-stage admission test used by the backtracking searches: no
clash against the selected slots, then the occupied-set walk. Returns the
new occupied keys on success. -/
def tryPlace (tt : String → Option Timing) (slot : Slot) (selected : List Slot)
    (occupied : List (String × Int)) : Option (List (String × Int)) :=
  if clashesWithSelected tt slot selected then none
  else collectNewOccupied tt occupied slot.get_individual_slots

/-- The recursion of `count_solutions.backtrack`: counter capped at
`max_count`, one increment per complete assignment, explicit
state passing for the selected list and occupied set. -/
def countBT (tt : String → Option Timing) (slotMap : Nat → List Slot)
    (max_count : Nat) :
    List Nat → List Slot → List (String × Int) → Nat → Nat
  | [], _, _, count => if max_count ≤ count then count else count + 1
  | cid :: rest, selected, occupied, count =>
    if max_count ≤ count then count
    else (slotMap cid).foldl (fun cnt slot =>
      if max_count ≤ cnt then cnt
      else
        match tryPlace tt slot selected occupied with
        | some newOcc => countBT tt slotMap max_count rest (selected ++ [slot])
            (occupied ++ newOcc) cnt
        | none => cnt) count

/-- `count_solutions` (the later, effective definition in the class):
0 for an empty course list, else the capped backtracking count over the
pre-built slot map. -/
def count_solutions (tt : String → Option Timing) (slotMap : Nat → List Slot)
    (courses : List Course) (max_count : Nat) : Nat :=
  if courses.isEmpty then 0
  else countBT tt slotMap max_count (courses.map Course.id) [] [] 0

/-- The per-course valid slot-code list of `count_distinct_solutions`:
codes of non-excluded slots, deduplicated (Python materialises a set; its
iteration order is unspecified and the count is order independent). -/
def course_valid_codes (prefs : GenerationPreferences) (course : Course) :
    List String :=
  ((course.slots.filter (fun s => !should_exclude_slot prefs s)).map
    Slot.slot_code).dedup

/-- The `course_slot_codes` dictionary of `count_distinct_solutions` as a
function of the course id (same dict conventions as `build_slot_map`). -/
def code_map (prefs : GenerationPreferences) (courses : List Course) (cid : Nat) :
    List String :=
  match (courses.filter (fun c => c.id == cid)).getLast? with
  | some c => course_valid_codes prefs c
  | none => []

/-- The recursion of `count_distinct_solutions.backtrack`: identical
shape, but over slot codes with only the occupied-time walk (the
mutual-exclusion group block in the source is dead code ending in `pass`). -/
def codeBT (tt : String → Option Timing) (codeMap : Nat → List String)
    (max_count : Nat) : List Nat → List (String × Int) → Nat → Nat
  | [], _, count => if max_count ≤ count then count else count + 1
  | cid :: rest, occupied, count =>
    if max_count ≤ count then count
    else (codeMap cid).foldl (fun cnt code =>
      if max_count ≤ cnt then cnt
      else
        match collectNewOccupied tt occupied (decompose code) with
        | some newOcc => codeBT tt codeMap max_count rest (occupied ++ newOcc) cnt
        | none => cnt) count

/-- `count_distinct_solutions`: 0 for an empty course list or as soon as
some course has no valid codes (the early return while building the code
dictionary), else the capped backtracking count over codes. -/
def count_distinct_solutions (tt : String → Option Timing)
    (prefs : GenerationPreferences) (courses : List Course) (max_count : Nat) : Nat :=
  if courses.isEmpty then 0
  else if courses.any (fun c => (course_valid_codes prefs c).isEmpty) then 0
  else codeBT tt (code_map prefs courses) max_count (courses.map Course.id) [] 0

/-- The mutable state of `generate.backtrack`: solutions found and
skipped, the seen identity-set signatures, and the solutions yielded so
far. -/
structure GenState where
  found : Nat
  skipped : Nat
  seen : List (Finset Nat)
  out : List TimetableSolution

/-- The complete-assignment branch of `generate.backtrack`: identity-set
dedup, offset skipping, then yield a scored solution. -/
def completeStep (tt : String → Option Timing) (prefs : GenerationPreferences)
    (offset : Nat) (selected : List Slot) (st : GenState) : GenState :=
  let sig := (selected.map Slot.id).toFinset
  if sig ∈ st.seen then st
  else
    let st1 : GenState := { st with seen := sig :: st.seen }
    if st1.skipped < offset then { st1 with skipped := st1.skipped + 1 }
    else
      { st1 with
        found := st1.found + 1,
        out := st1.out ++ [⟨selected, calculate_solution_score tt prefs selected,
          totalCredits selected⟩] }

/-- The recursion of `generate.backtrack` with explicit state passing; the
early returns on `solutions_found >= limit` become guards that freeze the
state. -/
def genBT (tt : String → Option Timing) (prefs : GenerationPreferences)
    (slotMap : Nat → List Slot) (limit offset : Nat) :
    List Nat → List Slot → List (String × Int) → GenState → GenState
  | [], selected, _, st =>
    if limit ≤ st.found then st else completeStep tt prefs offset selected st
  | cid :: rest, selected, occupied, st =>
    if limit ≤ st.found then st
    else (slotMap cid).foldl (fun st1 slot =>
      if limit ≤ st1.found then st1
      else
        match tryPlace tt slot selected occupied with
        | some newOcc => genBT tt prefs slotMap limit offset rest
            (selected ++ [slot]) (occupied ++ newOcc) st1
        | none => st1) st

/-- `generate`: empty for no courses; otherwise the solutions yielded by
the backtracking over the shuffled course order (`courseOrder`) and the
current slot map (whose per-course lists `generate` reshuffles in place;
the post-shuffle map is the `slotMap` argument). -/
def generate (tt : String → Option Timing) (prefs : GenerationPreferences)
    (slotMap : Nat → List Slot) (courses : List Course) (courseOrder : List Nat)
    (limit offset : Nat) : List TimetableSolution :=
  if courses.isEmpty then []
  else (genBT tt prefs slotMap limit offset courseOrder [] [] ⟨0, 0, [], []⟩).out

/-- `generate_batch`: materialise `generate` and stable-sort by score
descending. -/
def generate_batch (tt : String → Option Timing) (prefs : GenerationPreferences)
    (slotMap : Nat → List Slot) (courses : List Course) (courseOrder : List Nat)
    (limit offset : Nat) : List TimetableSolution :=
  stableSortBy (fun a b => decide (b.score ≤ a.score))
    (generate tt prefs slotMap courses courseOrder limit offset)

/-- `_get_timetable_signature`: days used, periods used, and cell counts
at periods up to 3 (morning) and above 3 (afternoon). -/
structure TimetableSignature where
  days_used : Finset String
  periods_used : Finset Int
  morning_count : Nat
  afternoon_count : Nat
deriving DecidableEq

/-- Fold one resolvable cell into a signature. -/
def sigStep (sig : TimetableSignature) (t : Timing) : TimetableSignature :=
  { days_used := insert t.day sig.days_used,
    periods_used := insert t.period sig.periods_used,
    morning_count := if t.period ≤ 3 then sig.morning_count + 1 else sig.morning_count,
    afternoon_count := if t.period ≤ 3 then sig.afternoon_count else sig.afternoon_count + 1 }

/-- `_get_timetable_signature` over a slot list. -/
def get_timetable_signature (tt : String → Option Timing) (slots : List Slot) :
    TimetableSignature :=
  slots.foldl (fun sig slot =>
    slot.get_individual_slots.foldl (fun sig s =>
      match tt s with
      | some t => sigStep sig t
      | none => sig) sig) ⟨∅, ∅, 0, 0⟩

/-- One random-restart attempt plan of `generate_ranked_pool`: the
shuffled course order and, per course id, the outcome of
`random.sample(slots, min(len(slots), 5))`. -/
structure AttemptPlan where
  order : List Nat
  picks : Nat → List Slot

/-- The candidate loop of one pool attempt: first sampled slot that
neither clashes with the already placed slots nor collides in
(day, period). -/
def attemptPick (tt : String → Option Timing) (current : List Slot)
    (occupied : List (String × Int)) :
    List Slot → Option (Slot × List (String × Int))
  | [] => none
  | slot :: more =>
    if clashesWithSelected tt slot current then attemptPick tt current occupied more
    else
      match collectNewOccupied tt occupied slot.get_individual_slots with
      | some newOcc => some (slot, newOcc)
      | none => attemptPick tt current occupied more

/-- One full pool attempt: place one sampled slot per course in the
shuffled order, abandoning the attempt on an empty candidate list or when
no sampled candidate clears. -/
def attemptRun (tt : String → Option Timing) (slotMap : Nat → List Slot)
    (picks : Nat → List Slot) :
    List Nat → List Slot → List (String × Int) → Option (List Slot)
  | [], current, _ => some current
  | cid :: rest, current, occupied =>
    if (slotMap cid).isEmpty then none
    else
      match attemptPick tt current occupied (picks cid) with
      | some (slot, newOcc) =>
          attemptRun tt slotMap picks rest (current ++ [slot]) (occupied ++ newOcc)
      | none => none

/-- The pool-collection loop of `generate_ranked_pool`: the while loop is
driven by the supplied attempt plans (one per attempt, so a plan list of
length `pool_attempts` covers the source loop bound), stopping early once
`target_pool` solutions are collected; complete solutions are accepted
only when their `_get_timetable_signature` is unseen. -/
def buildPool (tt : String → Option Timing) (slotMap : Nat → List Slot)
    (numCourses target_pool : Nat) :
    List AttemptPlan → List (List Slot) → List TimetableSignature → List (List Slot)
  | [], pool, _ => pool
  | plan :: rest, pool, seen =>
    if target_pool ≤ pool.length then pool
    else
      match attemptRun tt slotMap plan.picks plan.order [] [] with
      | some sol =>
        if sol.length = numCourses then
          let sig := get_timetable_signature tt sol
          if sig ∈ seen then buildPool tt slotMap numCourses target_pool rest pool seen
          else buildPool tt slotMap numCourses target_pool rest (pool ++ [sol]) (sig :: seen)
        else buildPool tt slotMap numCourses target_pool rest pool seen
      | none => buildPool tt slotMap numCourses target_pool rest pool seen

/-- `generate_ranked_pool`: rebuild the slot map ignoring preferences and
without score sorting, collect the pool (target 20000), score each pooled
solution with `_calculate_solution_total_score`, stable-sort descending
and keep the top `target_size`. -/
def generate_ranked_pool (tt : String → Option Timing)
    (prefs : GenerationPreferences) (courses : List Course)
    (shuffle : Nat → List Slot → List Slot) (plans : List AttemptPlan)
    (target_size : Nat) : List TimetableSolution :=
  let slotMap := build_slot_map tt prefs shuffle true true courses
  let pool := buildPool tt slotMap courses.length 20000 plans [] []
  let scored := pool.map (fun slots =>
    (⟨slots, calculate_solution_total_score tt prefs slots,
      totalCredits slots⟩ : TimetableSolution))
  (stableSortBy (fun a b => decide (b.score ≤ a.score)) scored).take target_size

/-- `_calculate_diversity_score`: 100 against an empty pool, else
`max(0, 100 - 5 * min_similarity)` where similarity is
`10 * shared slot ids + 2 * shared days + shared periods`. -/
def calculate_diversity_score (tt : String → Option Timing)
    (new_slots : List Slot) (existing : List TimetableSolution) : Rat :=
  let new_sig := get_timetable_signature tt new_slots
  let new_ids := (new_slots.map Slot.id).toFinset
  let sims := existing.map (fun ex =>
    let ex_sig := get_timetable_signature tt ex.slots
    let ex_ids := (ex.slots.map Slot.id).toFinset
    (new_ids ∩ ex_ids).card * 10 + (new_sig.days_used ∩ ex_sig.days_used).card * 2
      + (new_sig.periods_used ∩ ex_sig.periods_used).card)
  match sims with
  | [] => 100
  | m :: ms =>
    let min_diff := ms.foldl Nat.min m
    max 0 (100 - (min_diff : Rat) * 5)

/-- `generate_diverse.try_generate.backtrack` with the shared attempt
counter threaded explicitly; each examined candidate costs one attempt,
and the search aborts once the budget is exhausted. -/
def diverseBT (tt : String → Option Timing) (slotMap : Nat → List Slot)
    (maxAttempts : Nat) :
    List Nat → List Slot → List (String × Int) → Nat → Option (List Slot) × Nat
  | cs, selected, occupied, att =>
    if maxAttempts ≤ att then (none, att)
    else
      match cs with
      | [] => (some selected, att)
      | cid :: rest =>
        (slotMap cid).foldl (fun acc slot =>
          match acc with
          | (some r, a) => (some r, a)
          | (none, a) =>
            let a1 := a + 1
            if maxAttempts ≤ a1 then (none, a1)
            else if clashesWithSelected tt slot selected then (none, a1)
            else
              match collectNewOccupied tt occupied slot.get_individual_slots with
              | none => (none, a1)
              | some newOcc => diverseBT tt slotMap maxAttempts rest
                  (selected ++ [slot]) (occupied ++ newOcc) a1) (none, att)

/-- One outer iteration plan of `generate_diverse`: the reshuffled course
order and, when slot shuffling is active, the reshuffled slot map. -/
structure DiversePlan where
  order : List Nat
  shuffledMap : Nat → List Slot

/-- The condition under which `generate_diverse` reshuffles candidate
lists. -/
def should_shuffle_slots (prefs : GenerationPreferences) : Bool :=
  prefs.time_mode == "none" && prefs.course_faculty_preferences.isEmpty

/-- The running state of the `generate_diverse` while loop. -/
structure DivState where
  solutions : List TimetableSolution
  seen : List (Finset Nat)
  attempts : Nat
  current_min : Rat
  streak : Nat

/-- The `generate_diverse` while loop, driven by the supplied iteration
plans (a plan list of length `limit * 50` covers the source loop, whose
attempt counter strictly grows on every non-breaking iteration): duplicate
results cost an attempt; the diversity bar drops by 5 (floor 5) after a
streak of more than 20 rejections; the first solution is accepted
unconditionally via the `len(solutions) == 0` disjunct. -/
def diverseLoop (tt : String → Option Timing) (prefs : GenerationPreferences)
    (baseMap : Nat → List Slot) (limit maxAttempts : Nat) :
    List DiversePlan → DivState → List TimetableSolution
  | [], st => st.solutions
  | plan :: rest, st =>
    if limit ≤ st.solutions.length ∨ maxAttempts ≤ st.attempts then st.solutions
    else
      let m := if should_shuffle_slots prefs then plan.shuffledMap else baseMap
      match diverseBT tt m maxAttempts plan.order [] [] st.attempts with
      | (none, _) => st.solutions
      | (some r, att1) =>
        let ids := (r.map Slot.id).toFinset
        if ids ∈ st.seen then
          diverseLoop tt prefs baseMap limit maxAttempts rest
            { st with attempts := att1 + 1 }
        else
          let diversity := calculate_diversity_score tt r st.solutions
          let cm := if 20 < st.streak then max 5 (st.current_min - 5) else st.current_min
          let sk := if 20 < st.streak then 0 else st.streak
          if cm ≤ diversity ∨ st.solutions.isEmpty then
            diverseLoop tt prefs baseMap limit maxAttempts rest
              { solutions := st.solutions ++ [⟨r, calculate_solution_score tt prefs r,
                  totalCredits r⟩],
                seen := ids :: st.seen, attempts := att1, current_min := cm, streak := 0 }
          else
            diverseLoop tt prefs baseMap limit maxAttempts rest
              { st with attempts := att1, current_min := cm, streak := sk + 1 }

/-- `generate_diverse`: empty course list short-circuits; otherwise the
while loop with attempt budget `limit * 50`. -/
def generate_diverse (tt : String → Option Timing) (prefs : GenerationPreferences)
    (courses : List Course) (baseMap : Nat → List Slot) (plans : List DiversePlan)
    (limit : Nat) (min_diversity : Rat) : List TimetableSolution :=
  if courses.isEmpty then []
  else diverseLoop tt prefs baseMap limit (limit * 50) plans
    ⟨[], [], 0, min_diversity, 0⟩

/-- Replace-or-append on an association list (Python dict assignment,
preserving insertion order). -/
def assocUpsert : List (Nat × Slot) → Nat → Slot → List (Nat × Slot)
  | [], k, v => [(k, v)]
  | (k0, v0) :: rest, k, v =>
    if k0 == k then (k0, v) :: rest
    else (k0, v0) :: assocUpsert rest k v

/-- The `reference_slots` dictionary of `generate_similar`: per course,
the first of its slots whose id is among the reference ids. -/
def reference_slots_map (courses : List Course) (reference_slot_ids : List Nat) :
    List (Nat × Slot) :=
  courses.foldl (fun m c =>
    match c.slots.find? (fun s => reference_slot_ids.contains s.id) with
    | some slot => assocUpsert m c.id slot
    | none => m) []

/-- `_combinations`: all r-element combinations in lexicographic index
order, exactly the enumeration order of the iterative source-level
k-combination generator. -/
def combinations : Nat → List Nat → List (List Nat)
  | 0, _ => [[]]
  | _ + 1, [] => []
  | r + 1, x :: xs =>
    (combinations r xs).map (fun c => x :: c) ++ combinations (r + 1) xs

/-- The fixed part of one `generate_similar` combination: reference slots
of all non-varied courses, with their resolvable cell keys added to the
occupied set without any clash check between them. -/
def similar_base (tt : String → Option Timing) (refMap : List (Nat × Slot))
    (course_ids : List Nat) (vary : List Nat) :
    List Slot × List (String × Int) :=
  course_ids.enum.foldl (fun acc p =>
    if vary.contains p.1 then acc
    else
      match refMap.lookup p.2 with
      | some slot => (acc.1 ++ [slot], acc.2 ++ slotKeys tt slot)
      | none => acc) ([], [])

/-- The state of `generate_similar`: collected solutions and seen
identity sets (initialised with the reference set). -/
structure SimState where
  solutions : List TimetableSolution
  seen : List (Finset Nat)

/-- The candidate loop of `generate_similar` for one varied course:
skip the reference slot, accept the first candidate clearing both clash
walks whose completed identity set is unseen and whose length matches the
course count, then stop (the Python `break`). -/
def similar_try_slot (tt : String → Option Timing) (prefs : GenerationPreferences)
    (refMap : List (Nat × Slot)) (numCourses : Nat) (selected : List Slot)
    (occupied : List (String × Int)) (cid : Nat) (st : SimState) :
    List Slot → SimState
  | [] => st
  | slot :: more =>
    if (match refMap.lookup cid with
        | some r => slot.id == r.id
        | none => false) then
      similar_try_slot tt prefs refMap numCourses selected occupied cid st more
    else if clashesWithSelected tt slot selected then
      similar_try_slot tt prefs refMap numCourses selected occupied cid st more
    else
      match collectNewOccupied tt occupied slot.get_individual_slots with
      | none => similar_try_slot tt prefs refMap numCourses selected occupied cid st more
      | some _ =>
        let test_selected := selected ++ [slot]
        let sig := (test_selected.map Slot.id).toFinset
        if sig ∉ st.seen ∧ test_selected.length = numCourses then
          { solutions := st.solutions ++ [⟨test_selected,
              calculate_solution_score tt prefs test_selected,
              totalCredits test_selected⟩],
            seen := sig :: st.seen }
        else similar_try_slot tt prefs refMap numCourses selected occupied cid st more

/-- One vary-index combination of `generate_similar`: build the fixed
base, then run the candidate loop for each varied index against that same
base (the source never extends `selected` or `occupied` between varied
indices). -/
def similar_combo (tt : String → Option Timing) (prefs : GenerationPreferences)
    (slotMap : Nat → List Slot) (refMap : List (Nat × Slot))
    (course_ids : List Nat) (limit : Nat) (st : SimState) (vary : List Nat) :
    SimState :=
  if limit ≤ st.solutions.length then st
  else
    let base := similar_base tt refMap course_ids vary
    vary.foldl (fun st1 idx =>
      let cid := course_ids.getD idx 0
      similar_try_slot tt prefs refMap course_ids.length base.1 base.2 cid st1
        (slotMap cid)) st

/-- `generate_similar`: vary 1 then 2 courses over all index combinations,
collecting at most `limit` solutions distinct from the reference and from
each other by identity set. -/
def generate_similar (tt : String → Option Timing) (prefs : GenerationPreferences)
    (slotMap : Nat → List Slot) (courses : List Course)
    (reference_slot_ids : List Nat) (limit : Nat) : List TimetableSolution :=
  if courses.isEmpty then []
  else
    let refMap := reference_slots_map courses reference_slot_ids
    let course_ids := courses.map Course.id
    let st0 : SimState := ⟨[], [reference_slot_ids.toFinset]⟩
    let st1 := [1, 2].foldl (fun st r =>
      if limit ≤ st.solutions.length then st
      else (combinations r (List.range course_ids.length)).foldl
        (fun st2 vary => similar_combo tt prefs slotMap refMap course_ids limit st2 vary)
        st) st0
    st1.solutions.take limit

/-- The no-clash property of a slot list: every (ordered) pair is
clash-free under `_check_clash`. -/
def ClashFreeSlots (tt : String → Option Timing) (slots : List Slot) : Prop :=
  slots.Pairwise (fun a b => check_clash tt a b = false)

/-- The no-clash invariant of a returned solution. -/
def solutionClashFree (tt : String → Option Timing) (sol : TimetableSolution) : Prop :=
  ClashFreeSlots tt sol.slots

instance {p : α → Prop} [DecidablePred p] (l : List α) : Decidable (l.Forall p) :=
  decidable_of_iff _ List.forall_iff_forall_mem.symm

lemma check_clash_symm (tt : String → Option Timing) (a b : Slot) :
    check_clash tt a b = check_clash tt b a := by
  rw [Bool.eq_iff_iff]
  simp only [check_clash, Bool.or_eq_true, List.any_eq_true, Bool.and_eq_true]
  constructor
  · rintro (⟨g, hg, h⟩ | ⟨s1, hs1, s2, hs2, h⟩)
    · exact Or.inl ⟨g, hg, by tauto⟩
    · refine Or.inr ⟨s2, hs2, s1, hs1, ?_⟩
      revert h
      rcases tt s1 with _ | t1 <;> rcases tt s2 with _ | t2 <;> simp
      intro h1 h2
      exact ⟨h1.symm, h2.symm⟩
  · rintro (⟨g, hg, h⟩ | ⟨s2, hs2, s1, hs1, h⟩)
    · exact Or.inl ⟨g, hg, by tauto⟩
    · refine Or.inr ⟨s1, hs1, s2, hs2, ?_⟩
      revert h
      rcases tt s1 with _ | t1 <;> rcases tt s2 with _ | t2 <;> simp
      intro h1 h2
      exact ⟨h1.symm, h2.symm⟩

lemma clashesWithSelected_eq_false {tt : String → Option Timing} {slot : Slot}
    {sel : List Slot} (h : clashesWithSelected tt slot sel = false) :
    ∀ e ∈ sel, check_clash tt slot e = false := by
  simp only [clashesWithSelected, List.any_eq_false] at h
  intro e he
  simpa using h e he

lemma ClashFreeSlots_extend {tt : String → Option Timing} {sel : List Slot} {slot : Slot}
    (h : ClashFreeSlots tt sel) (hc : clashesWithSelected tt slot sel = false) :
    ClashFreeSlots tt (sel ++ [slot]) := by
  rw [ClashFreeSlots, List.pairwise_append]
  refine ⟨h, List.pairwise_singleton _ _, ?_⟩
  intro a ha b hb
  rw [List.mem_singleton] at hb
  subst hb
  rw [check_clash_symm]
  exact clashesWithSelected_eq_false hc a ha

lemma ClashFreeSlots_nil (tt : String → Option Timing) : ClashFreeSlots tt [] :=
  List.Pairwise.nil

/-- A generic foldl invariant for the element lists carried inside fold
states. -/
lemma foldl_out_inv {σ α β : Type _} (outOf : σ → List β) (P : β → Prop)
    (f : σ → α → σ)
    (hf : ∀ st x, (∀ b ∈ outOf st, P b) → ∀ b ∈ outOf (f st x), P b) :
    ∀ (L : List α) (st : σ), (∀ b ∈ outOf st, P b) →
      ∀ b ∈ outOf (L.foldl f st), P b := by
  intro L
  induction L with
  | nil =>
    intro st h
    simpa using h
  | cons x xs ih =>
    intro st h
    exact ih (f st x) (hf st x h)

lemma stableInsert_perm (le : α → α → Bool) (x : α) :
    ∀ l : List α, (stableInsert le x l).Perm (x :: l) := by
  intro l
  induction l with
  | nil => simp [stableInsert]
  | cons y ys ih =>
    rw [stableInsert]
    by_cases h : le x y
    · rw [if_pos h]
    · rw [if_neg h]
      exact (ih.cons y).trans (List.Perm.swap x y ys)

lemma stableSortBy_perm (le : α → α → Bool) :
    ∀ l : List α, (stableSortBy le l).Perm l := by
  intro l
  induction l with
  | nil => simp [stableSortBy]
  | cons x xs ih =>
    rw [stableSortBy]
    exact (stableInsert_perm le x (stableSortBy le xs)).trans (ih.cons x)

lemma mem_stableSortBy {le : α → α → Bool} {l : List α} {a : α} :
    a ∈ stableSortBy le l ↔ a ∈ l :=
  (stableSortBy_perm le l).mem_iff

lemma stableInsert_pairwise {le : α → α → Bool}
    (htrans : ∀ a b c, le a b = true → le b c = true → le a c = true)
    (htotal : ∀ a b, le a b = true ∨ le b a = true) (x : α) :
    ∀ l : List α, l.Pairwise (fun a b => le a b = true) →
      (stableInsert le x l).Pairwise (fun a b => le a b = true) := by
  intro l
  induction l with
  | nil =>
    intro _
    simp [stableInsert, List.pairwise_singleton]
  | cons y ys ih =>
    intro h
    rw [List.pairwise_cons] at h
    rw [stableInsert]
    by_cases hxy : le x y
    · rw [if_pos hxy]
      refine List.pairwise_cons.2 ⟨?_, List.pairwise_cons.2 ⟨h.1, h.2⟩⟩
      intro b hb
      rcases List.mem_cons.1 hb with hb | hb
      · subst hb; exact hxy
      · exact htrans x y b hxy (h.1 b hb)
    · rw [if_neg hxy]
      have hyx : le y x = true := by
        rcases htotal x y with h1 | h1
        · exact absurd h1 hxy
        · exact h1
      refine List.pairwise_cons.2 ⟨?_, ih h.2⟩
      intro b hb
      have := (stableInsert_perm le x ys).mem_iff.1 hb
      rcases List.mem_cons.1 this with hb1 | hb1
      · subst hb1; exact hyx
      · exact h.1 b hb1

lemma stableSortBy_pairwise {le : α → α → Bool}
    (htrans : ∀ a b c, le a b = true → le b c = true → le a c = true)
    (htotal : ∀ a b, le a b = true ∨ le b a = true) :
    ∀ l : List α, (stableSortBy le l).Pairwise (fun a b => le a b = true) := by
  intro l
  induction l with
  | nil => simp [stableSortBy]
  | cons x xs ih =>
    rw [stableSortBy]
    exact stableInsert_pairwise htrans htotal x _ ih

lemma completeStep_inv {tt : String → Option Timing} {prefs : GenerationPreferences}
    {offset : Nat} {selected : List Slot} {st : GenState}
    (hsel : ClashFreeSlots tt selected)
    (hst : ∀ sol ∈ st.out, ClashFreeSlots tt sol.slots) :
    ∀ sol ∈ (completeStep tt prefs offset selected st).out, ClashFreeSlots tt sol.slots := by
  intro sol hsol
  rw [completeStep] at hsol
  by_cases h1 : (selected.map Slot.id).toFinset ∈ st.seen
  · rw [if_pos h1] at hsol
    exact hst sol hsol
  · rw [if_neg h1] at hsol
    by_cases h2 : st.skipped < offset
    · simp only [if_pos h2] at hsol
      exact hst sol hsol
    · simp only [if_neg h2] at hsol
      rcases List.mem_append.1 hsol with h | h
      · exact hst sol h
      · rw [List.mem_singleton] at h
        subst h
        exact hsel

lemma genBT_inv (tt : String → Option Timing) (prefs : GenerationPreferences)
    (slotMap : Nat → List Slot) (limit offset : Nat) :
    ∀ (cs : List Nat) (selected : List Slot) (occ : List (String × Int)) (st : GenState),
      ClashFreeSlots tt selected →
      (∀ sol ∈ st.out, ClashFreeSlots tt sol.slots) →
      ∀ sol ∈ (genBT tt prefs slotMap limit offset cs selected occ st).out,
        ClashFreeSlots tt sol.slots := by
  intro cs
  induction cs with
  | nil =>
    intro selected occ st hsel hst sol hsol
    rw [genBT] at hsol
    by_cases hl : limit ≤ st.found
    · rw [if_pos hl] at hsol
      exact hst sol hsol
    · rw [if_neg hl] at hsol
      exact completeStep_inv hsel hst sol hsol
  | cons cid rest ih =>
    intro selected occ st hsel hst sol hsol
    rw [genBT] at hsol
    by_cases hl : limit ≤ st.found
    · rw [if_pos hl] at hsol
      exact hst sol hsol
    · rw [if_neg hl] at hsol
      refine foldl_out_inv GenState.out (fun sol => ClashFreeSlots tt sol.slots) _
        ?_ (slotMap cid) st hst sol hsol
      intro st1 slot h1
      by_cases hf : limit ≤ st1.found
      · simpa [hf] using h1
      · simp only [if_neg hf]
        rcases htp : tryPlace tt slot selected occ with _ | newOcc
        · simpa using h1
        · simp only []
          have hext : ClashFreeSlots tt (selected ++ [slot]) := by
            refine ClashFreeSlots_extend hsel ?_
            by_contra hc
            rw [Bool.not_eq_false] at hc
            rw [tryPlace, if_pos hc] at htp
            exact Option.noConfusion htp
          exact ih (selected ++ [slot]) (occ ++ newOcc) st1 hext h1

lemma generate_clashFree (tt : String → Option Timing) (prefs : GenerationPreferences)
    (slotMap : Nat → List Slot) (courses : List Course) (courseOrder : List Nat)
    (limit offset : Nat) :
    ∀ sol ∈ generate tt prefs slotMap courses courseOrder limit offset,
      ClashFreeSlots tt sol.slots := by
  intro sol hsol
  rw [generate] at hsol
  by_cases hc : courses.isEmpty
  · rw [if_pos hc] at hsol
    exact absurd hsol (List.not_mem_nil sol)
  · rw [if_neg hc] at hsol
    refine genBT_inv tt prefs slotMap limit offset courseOrder [] [] ⟨0, 0, [], []⟩
      (ClashFreeSlots_nil tt) ?_ sol hsol
    intro s hs
    exact absurd hs (List.not_mem_nil s)

lemma generate_batch_clashFree (tt : String → Option Timing)
    (prefs : GenerationPreferences) (slotMap : Nat → List Slot)
    (courses : List Course) (courseOrder : List Nat) (limit offset : Nat) :
    ∀ sol ∈ generate_batch tt prefs slotMap courses courseOrder limit offset,
      ClashFreeSlots tt sol.slots := by
  intro sol hsol
  rw [generate_batch] at hsol
  exact generate_clashFree tt prefs slotMap courses courseOrder limit offset sol
    (mem_stableSortBy.1 hsol)

lemma attemptPick_clash {tt : String → Option Timing} {current : List Slot}
    {occ : List (String × Int)} {slot : Slot} {newOcc : List (String × Int)} :
    ∀ {L : List Slot}, attemptPick tt current occ L = some (slot, newOcc) →
      clashesWithSelected tt slot current = false := by
  intro L
  induction L with
  | nil =>
    intro h
    exact Option.noConfusion h
  | cons x xs ih =>
    intro h
    rw [attemptPick] at h
    by_cases hx : clashesWithSelected tt x current
    · rw [if_pos hx] at h
      exact ih h
    · rw [if_neg hx] at h
      rcases hco : collectNewOccupied tt occ x.get_individual_slots with _ | acc
    
      · rw [hco] at h
        exact ih h
      · rw [hco] at h
        have := Option.some.inj h
        have hx1 : x = slot := congrArg Prod.fst this
        subst hx1
        exact Bool.not_eq_true _ ▸ (by simpa using hx)

lemma attemptRun_clashFree (tt : String → Option Timing) (slotMap : Nat → List Slot)
    (picks : Nat → List Slot) :
    ∀ (order : List Nat) (current : List Slot) (occ : List (String × Int))
      (sol : List Slot), ClashFreeSlots tt current →
      attemptRun tt slotMap picks order current occ = some sol →
      ClashFreeSlots tt sol := by
  intro order
  induction order with
  | nil =>
    intro current occ sol hcur h
    rw [attemptRun] at h
    rw [← Option.some.inj h]
    exact hcur
  | cons cid rest ih =>
    intro current occ sol hcur h
    rw [attemptRun] at h
    by_cases he : (slotMap cid).isEmpty
    · rw [if_pos he] at h
      exact Option.noConfusion h
    · rw [if_neg he] at h
      rcases hp : attemptPick tt current occ (picks cid) with _ | p
      · rw [hp] at h
        exact Option.noConfusion h
      · rw [hp] at h
        refine ih (current ++ [p.1]) (occ ++ p.2) sol ?_ h
        exact ClashFreeSlots_extend hcur (attemptPick_clash hp)

lemma buildPool_clashFree (tt : String → Option Timing) (slotMap : Nat → List Slot)
    (numCourses target_pool : Nat) :
    ∀ (plans : List AttemptPlan) (pool : List (List Slot))
      (seen : List TimetableSignature),
      (∀ sl ∈ pool, ClashFreeSlots tt sl) →
      ∀ sl ∈ buildPool tt slotMap numCourses target_pool plans pool seen,
        ClashFreeSlots tt sl := by
  intro plans
  induction plans with
  | nil =>
    intro pool seen hpool sl hsl
    rw [buildPool] at hsl
    exact hpool sl hsl
  | cons plan rest ih =>
    intro pool seen hpool sl hsl
    rw [buildPool] at hsl
    by_cases ht : target_pool ≤ pool.length
    · rw [if_pos ht] at hsl
      exact hpool sl hsl
    · rw [if_neg ht] at hsl
      rcases hr : attemptRun tt slotMap plan.picks plan.order [] [] with _ | s
      · rw [hr] at hsl
        exact ih pool seen hpool sl hsl
      · rw [hr] at hsl
        have hscf : ClashFreeSlots tt s :=
          attemptRun_clashFree tt slotMap plan.picks plan.order [] [] s
            (ClashFreeSlots_nil tt) hr
        by_cases hn : s.length = numCourses
        · simp only [if_pos hn] at hsl
          by_cases hg : get_timetable_signature tt s ∈ seen
          · rw [if_pos hg] at hsl
            exact ih pool seen hpool sl hsl
          · rw [if_neg hg] at hsl
            refine ih (pool ++ [s]) _ ?_ sl hsl
            intro sl2 hsl2
            rcases List.mem_append.1 hsl2 with h | h
            · exact hpool sl2 h
            · rw [List.mem_singleton] at h
              subst h
              exact hscf
        · simp only [if_neg hn] at hsl
          exact ih pool seen hpool sl hsl

lemma generate_ranked_pool_clashFree (tt : String → Option Timing)
    (prefs : GenerationPreferences) (courses : List Course)
    (shuffle : Nat → List Slot → List Slot) (plans : List AttemptPlan)
    (target_size : Nat) :
    ∀ sol ∈ generate_ranked_pool tt prefs courses shuffle plans target_size,
      ClashFreeSlots tt sol.slots := by
  intro sol hsol
  rw [generate_ranked_pool] at hsol
  have h1 := List.take_subset _ _ hsol
  have h2 := mem_stableSortBy.1 h1
  rcases List.mem_map.1 h2 with ⟨sl, hsl, hmk⟩
  have hslots : sol.slots = sl := by rw [← hmk]
  rw [hslots]
  exact buildPool_clashFree tt _ courses.length 20000 plans [] []
    (fun s hs => absurd hs (List.not_mem_nil s)) sl hsl

lemma foldl_pres {σ α : Type _} (Q : σ → Prop) (f : σ → α → σ)
    (hf : ∀ s x, Q s → Q (f s x)) :
    ∀ (L : List α) (s : σ), Q s → Q (L.foldl f s) := by
  intro L
  induction L with
  | nil =>
    intro s h
    simpa using h
  | cons x xs ih =>
    intro s h
    exact ih (f s x) (hf s x h)

lemma diverseFold_clashFree (tt : String → Option Timing) (slotMap : Nat → List Slot)
    (maxAttempts : Nat) (rest : List Nat) (selected : List Slot)
    (occ : List (String × Int))
    (ihBT : ∀ (sel2 : List Slot) (occ2 : List (String × Int)) (a : Nat),
      ClashFreeSlots tt sel2 →
      ∀ (r : List Slot) (a2 : Nat),
        diverseBT tt slotMap maxAttempts rest sel2 occ2 a = (some r, a2) →
        ClashFreeSlots tt r)
    (hsel : ClashFreeSlots tt selected) :
    ∀ (L : List Slot) (acc : Option (List Slot) × Nat),
      (∀ (r : List Slot) (a2 : Nat), acc = (some r, a2) → ClashFreeSlots tt r) →
      ∀ (r : List Slot) (a2 : Nat),
        L.foldl (fun acc slot =>
          match acc with
          | (some r, a) => (some r, a)
          | (none, a) =>
            let a1 := a + 1
            if maxAttempts ≤ a1 then (none, a1)
            else if clashesWithSelected tt slot selected then (none, a1)
            else
              match collectNewOccupied tt occ slot.get_individual_slots with
              | none => (none, a1)
              | some newOcc => diverseBT tt slotMap maxAttempts rest
                  (selected ++ [slot]) (occ ++ newOcc) a1) acc = (some r, a2) →
        ClashFreeSlots tt r := by
  intro L
  induction L with
  | nil =>
    intro acc hacc r a2 h
    exact hacc r a2 h
  | cons slot more ih =>
    intro acc hacc r a2 h
    rw [List.foldl_cons] at h
    refine ih _ ?_ r a2 h
    rcases acc with ⟨o, a⟩
    rcases o with _ | r0
    · intro r2 b2 heq
      simp only [] at heq
      by_cases hma : maxAttempts ≤ a + 1
      · rw [if_pos hma] at heq
        exact Option.noConfusion (congrArg Prod.fst heq)
      · rw [if_neg hma] at heq
        by_cases hcl : clashesWithSelected tt slot selected
        · rw [if_pos hcl] at heq
          exact Option.noConfusion (congrArg Prod.fst heq)
        · rw [if_neg hcl] at heq
          rcases hco : collectNewOccupied tt occ slot.get_individual_slots with _ | newOcc
          · rw [hco] at heq
            exact Option.noConfusion (congrArg Prod.fst heq)
          · rw [hco] at heq
            refine ihBT (selected ++ [slot]) (occ ++ newOcc) (a + 1) ?_ r2 b2 heq
            exact ClashFreeSlots_extend hsel (by simpa using hcl)
    · intro r2 b2 heq
      exact hacc r2 b2 (by simpa using heq)

lemma diverseBT_clashFree (tt : String → Option Timing) (slotMap : Nat → List Slot)
    (maxAttempts : Nat) :
    ∀ (cs : List Nat) (selected : List Slot) (occ : List (String × Int)) (att : Nat),
      ClashFreeSlots tt selected →
      ∀ (r : List Slot) (att2 : Nat),
        diverseBT tt slotMap maxAttempts cs selected occ att = (some r, att2) →
        ClashFreeSlots tt r := by
  intro cs
  induction cs with
  | nil =>
    intro selected occ att hsel r att2 h
    rw [diverseBT] at h
    by_cases hm : maxAttempts ≤ att
    · rw [if_pos hm] at h
      exact Option.noConfusion (congrArg Prod.fst h)
    · rw [if_neg hm] at h
      have : some selected = some r := congrArg Prod.fst h
      rw [← Option.some.inj this]
      exact hsel
  | cons cid rest ih =>
    intro selected occ att hsel r att2 h
    rw [diverseBT] at h
    by_cases hm : maxAttempts ≤ att
    · rw [if_pos hm] at h
      exact Option.noConfusion (congrArg Prod.fst h)
    · rw [if_neg hm] at h
      refine diverseFold_clashFree tt slotMap maxAttempts rest selected occ
        (fun sel2 occ2 a hcf => ih sel2 occ2 a hcf) hsel (slotMap cid) (none, att)
        ?_ r att2 h
      intro r2 a2 heq
      exact Option.noConfusion (congrArg Prod.fst heq)

lemma diverseLoop_clashFree (tt : String → Option Timing)
    (prefs : GenerationPreferences) (baseMap : Nat → List Slot)
    (limit maxAttempts : Nat) :
    ∀ (plans : List DiversePlan) (st : DivState),
      (∀ sol ∈ st.solutions, ClashFreeSlots tt sol.slots) →
      ∀ sol ∈ diverseLoop tt prefs baseMap limit maxAttempts plans st,
        ClashFreeSlots tt sol.slots := by
  intro plans
  induction plans with
  | nil =>
    intro st hst sol hsol
    rw [diverseLoop] at hsol
    exact hst sol hsol
  | cons plan rest ih =>
    intro st hst sol hsol
    rw [diverseLoop] at hsol
    by_cases hstop : limit ≤ st.solutions.length ∨ maxAttempts ≤ st.attempts
    · rw [if_pos hstop] at hsol
      exact hst sol hsol
    · rw [if_neg hstop] at hsol
      rcases hbt : diverseBT tt (if should_shuffle_slots prefs then plan.shuffledMap
          else baseMap) maxAttempts plan.order [] [] st.attempts with ⟨o, att1⟩
      rcases o with _ | r
      · simp only [hbt] at hsol
        exact hst sol hsol
      · simp only [hbt] at hsol
        have hrcf : ClashFreeSlots tt r :=
          diverseBT_clashFree tt _ maxAttempts plan.order [] [] st.attempts
            (ClashFreeSlots_nil tt) r att1 hbt
        by_cases hdup : (r.map Slot.id).toFinset ∈ st.seen
        · rw [if_pos hdup] at hsol
          refine ih _ ?_ sol hsol
          intro s hs
          exact hst s hs
        · rw [if_neg hdup] at hsol
          by_cases hacc : (if 20 < st.streak then max 5 (st.current_min - 5)
              else st.current_min) ≤ calculate_diversity_score tt r st.solutions
              ∨ st.solutions.isEmpty
          · rw [if_pos hacc] at hsol
            refine ih _ ?_ sol hsol
            intro s hs
            rcases List.mem_append.1 hs with h | h
            · exact hst s h
            · rw [List.mem_singleton] at h
              subst h
              exact hrcf
          · rw [if_neg hacc] at hsol
            refine ih _ ?_ sol hsol
            intro s hs
            exact hst s hs

lemma generate_diverse_clashFree (tt : String → Option Timing)
    (prefs : GenerationPreferences) (courses : List Course)
    (baseMap : Nat → List Slot) (plans : List DiversePlan) (limit : Nat)
    (min_diversity : Rat) :
    ∀ sol ∈ generate_diverse tt prefs courses baseMap plans limit min_diversity,
      ClashFreeSlots tt sol.slots := by
  intro sol hsol
  rw [generate_diverse] at hsol
  by_cases hc : courses.isEmpty
  · rw [if_pos hc] at hsol
    exact absurd hsol (List.not_mem_nil sol)
  · rw [if_neg hc] at hsol
    refine diverseLoop_clashFree tt prefs baseMap limit (limit * 50) plans _ ?_ sol hsol
    intro s hs
    exact absurd hs (List.not_mem_nil s)

lemma generate_ranked_pool_scores (tt : String → Option Timing)
    (prefs : GenerationPreferences) (courses : List Course)
    (shuffle : Nat → List Slot → List Slot) (plans : List AttemptPlan)
    (target_size : Nat) :
    ∀ sol ∈ generate_ranked_pool tt prefs courses shuffle plans target_size,
      sol.score = calculate_solution_total_score tt prefs sol.slots := by
  intro sol hsol
  rw [generate_ranked_pool] at hsol
  have h1 := List.take_subset _ _ hsol
  have h2 := mem_stableSortBy.1 h1
  rcases List.mem_map.1 h2 with ⟨sl, _, hmk⟩
  rw [← hmk]

lemma pairwise_score_sorted_take {l : List TimetableSolution} {n : Nat} :
    (stableSortBy (fun a b => decide (b.score ≤ a.score)) l).take n |>.Pairwise
      (fun a b => b.score ≤ a.score) := by
  have hs := @stableSortBy_pairwise TimetableSolution
    (fun a b : TimetableSolution => decide (b.score ≤ a.score)) ?_ ?_ l
  · have := List.Pairwise.sublist (List.take_sublist n _) hs
    exact this.imp (fun h => of_decide_eq_true h)
  · intro a b c hab hbc
    have h1 := of_decide_eq_true hab
    have h2 := of_decide_eq_true hbc
    exact decide_eq_true (le_trans h2 h1)
  · intro a b
    rcases le_total a.score b.score with h | h
    · exact Or.inr (decide_eq_true h)
    · exact Or.inl (decide_eq_true h)

lemma buildPool_sig_distinct (tt : String → Option Timing)
    (slotMap : Nat → List Slot) (numCourses target_pool : Nat) :
    ∀ (plans : List AttemptPlan) (pool : List (List Slot))
      (seen : List TimetableSignature),
      (∀ sl ∈ pool, get_timetable_signature tt sl ∈ seen) →
      pool.Pairwise (fun a b => get_timetable_signature tt a ≠ get_timetable_signature tt b) →
      pool.length ≤ target_pool →
      ((buildPool tt slotMap numCourses target_pool plans pool seen).Pairwise
          (fun a b => get_timetable_signature tt a ≠ get_timetable_signature tt b) ∧
        (buildPool tt slotMap numCourses target_pool plans pool seen).length ≤ target_pool) := by
  intro plans
  induction plans with
  | nil =>
    intro pool seen h1 h2 h3
    rw [buildPool]
    exact ⟨h2, h3⟩
  | cons plan rest ih =>
    intro pool seen h1 h2 h3
    rw [buildPool]
    by_cases ht : target_pool ≤ pool.length
    · rw [if_pos ht]
      exact ⟨h2, h3⟩
    · rw [if_neg ht]
      rcases hr : attemptRun tt slotMap plan.picks plan.order [] [] with _ | s
      · exact ih pool seen h1 h2 h3
      · by_cases hn : s.length = numCourses
        · simp only [if_pos hn]
          by_cases hg : get_timetable_signature tt s ∈ seen
          · rw [if_pos hg]
            exact ih pool seen h1 h2 h3
          · rw [if_neg hg]
            refine ih (pool ++ [s]) _ ?_ ?_ ?_
            · intro sl hsl
              rcases List.mem_append.1 hsl with h | h
              · exact List.mem_cons_of_mem _ (h1 sl h)
              · rw [List.mem_singleton] at h
                subst h
                exact List.mem_cons_self _ _
            · rw [List.pairwise_append]
              refine ⟨h2, List.pairwise_singleton _ _, ?_⟩
              intro a ha b hb
              rw [List.mem_singleton] at hb
              subst hb
              intro hcontra
              exact hg (hcontra ▸ h1 a ha)
            · rw [List.length_append, List.length_singleton]
              omega
        · simp only [if_neg hn]
          exact ih pool seen h1 h2 h3

lemma diverseLoop_length_mono (tt : String → Option Timing)
    (prefs : GenerationPreferences) (baseMap : Nat → List Slot)
    (limit maxAttempts : Nat) :
    ∀ (plans : List DiversePlan) (st : DivState),
      st.solutions.length ≤
        (diverseLoop tt prefs baseMap limit maxAttempts plans st).length := by
  intro plans
  induction plans with
  | nil =>
    intro st
    rw [diverseLoop]
  | cons plan rest ih =>
    intro st
    rw [diverseLoop]
    by_cases hstop : limit ≤ st.solutions.length ∨ maxAttempts ≤ st.attempts
    · rw [if_pos hstop]
    · rw [if_neg hstop]
      rcases hbt : diverseBT tt (if should_shuffle_slots prefs then plan.shuffledMap
          else baseMap) maxAttempts plan.order [] [] st.attempts with ⟨o, att1⟩
      rcases o with _ | r
      · simp only [hbt]
        exact le_refl _
      · simp only [hbt]
        by_cases hdup : (r.map Slot.id).toFinset ∈ st.seen
        · rw [if_pos hdup]
          exact ih ⟨st.solutions, st.seen, att1 + 1, st.current_min, st.streak⟩
        · rw [if_neg hdup]
          by_cases hacc : (if 20 < st.streak then max 5 (st.current_min - 5)
              else st.current_min) ≤ calculate_diversity_score tt r st.solutions
              ∨ st.solutions.isEmpty
          · rw [if_pos hacc]
            refine le_trans ?_ (ih ⟨st.solutions ++ [⟨r,
              calculate_solution_score tt prefs r, totalCredits r⟩],
              (r.map Slot.id).toFinset :: st.seen, att1,
              if 20 < st.streak then max 5 (st.current_min - 5) else st.current_min,
              0⟩)
            rw [List.length_append]
            omega
          · rw [if_neg hacc]
            exact ih ⟨st.solutions, st.seen, att1,
              (if 20 < st.streak then max 5 (st.current_min - 5) else st.current_min),
              (if 20 < st.streak then 0 else st.streak) + 1⟩

/-- The uncapped solution count over explicit per-course candidate lists:
the specification-side cross-product count that the capped backtracking of
`count_solutions` realises (see `countBT_eq_min`). -/
def chainCountS (tt : String → Option Timing) :
    List (List Slot) → List Slot → List (String × Int) → Nat
  | [], _, _ => 1
  | slots :: rest, selected, occupied =>
    (slots.map (fun slot =>
      match tryPlace tt slot selected occupied with
      | some newOcc => chainCountS tt rest (selected ++ [slot]) (occupied ++ newOcc)
      | none => 0)).sum

/-- The uncapped code-pattern count over explicit per-course code lists,
realised by the capped backtracking of `count_distinct_solutions`. -/
def chainCountC (tt : String → Option Timing) :
    List (List String) → List (String × Int) → Nat
  | [], _ => 1
  | codes :: rest, occupied =>
    (codes.map (fun code =>
      match collectNewOccupied tt occupied (decompose code) with
      | some newOcc => chainCountC tt rest (occupied ++ newOcc)
      | none => 0)).sum

lemma countFold_eq_min (tt : String → Option Timing) (slotMap : Nat → List Slot)
    (M : Nat) (rest : List Nat) (selected : List Slot) (occ : List (String × Int))
    (IH : ∀ (sel2 : List Slot) (occ2 : List (String × Int)) (k2 : Nat), k2 ≤ M →
      countBT tt slotMap M rest sel2 occ2 k2 =
        min M (k2 + chainCountS tt (rest.map slotMap) sel2 occ2)) :
    ∀ (L : List Slot) (k : Nat), k ≤ M →
      L.foldl (fun cnt slot =>
        if M ≤ cnt then cnt
        else
          match tryPlace tt slot selected occ with
          | some newOcc => countBT tt slotMap M rest (selected ++ [slot])
              (occ ++ newOcc) cnt
          | none => cnt) k
      = min M (k + (L.map (fun slot =>
          match tryPlace tt slot selected occ with
          | some newOcc => chainCountS tt (rest.map slotMap) (selected ++ [slot])
              (occ ++ newOcc)
          | none => 0)).sum) := by
  intro L
  induction L with
  | nil =>
    intro k hk
    simp only [List.foldl_nil, List.map_nil, List.sum_nil]
    omega
  | cons slot L2 ih =>
    intro k hk
    rw [List.foldl_cons, List.map_cons, List.sum_cons]
    by_cases hmk : M ≤ k
    · have hkM : k = M := le_antisymm hk hmk
      subst hkM
      rw [if_pos hmk, ih k hk]
      omega
    · rw [if_neg hmk]
      rcases htp : tryPlace tt slot selected occ with _ | newOcc
      · dsimp only
        rw [ih k hk]
        omega
      · dsimp only
        have hbt := IH (selected ++ [slot]) (occ ++ newOcc) k hk
        rw [hbt, ih _ (Nat.min_le_left _ _)]
        omega

lemma countBT_eq_min (tt : String → Option Timing) (slotMap : Nat → List Slot)
    (M : Nat) :
    ∀ (cs : List Nat) (selected : List Slot) (occ : List (String × Int)) (k : Nat),
      k ≤ M →
      countBT tt slotMap M cs selected occ k
        = min M (k + chainCountS tt (cs.map slotMap) selected occ) := by
  intro cs
  induction cs with
  | nil =>
    intro selected occ k hk
    rw [countBT]
    simp only [List.map_nil, chainCountS]
    by_cases hmk : M ≤ k
    · rw [if_pos hmk]
      omega
    · rw [if_neg hmk]
      omega
  | cons cid rest ih =>
    intro selected occ k hk
    rw [countBT, List.map_cons, chainCountS]
    by_cases hmk : M ≤ k
    · rw [if_pos hmk]
      omega
    · rw [if_neg hmk]
      exact countFold_eq_min tt slotMap M rest selected occ
        (fun sel2 occ2 k2 hk2 => ih sel2 occ2 k2 hk2) (slotMap cid) k hk

lemma codeFold_eq_min (tt : String → Option Timing) (codeMap : Nat → List String)
    (M : Nat) (rest : List Nat) (occ : List (String × Int))
    (IH : ∀ (occ2 : List (String × Int)) (k2 : Nat), k2 ≤ M →
      codeBT tt codeMap M rest occ2 k2 =
        min M (k2 + chainCountC tt (rest.map codeMap) occ2)) :
    ∀ (L : List String) (k : Nat), k ≤ M →
      L.foldl (fun cnt code =>
        if M ≤ cnt then cnt
        else
          match collectNewOccupied tt occ (decompose code) with
          | some newOcc => codeBT tt codeMap M rest (occ ++ newOcc) cnt
          | none => cnt) k
      = min M (k + (L.map (fun code =>
          match collectNewOccupied tt occ (decompose code) with
          | some newOcc => chainCountC tt (rest.map codeMap) (occ ++ newOcc)
          | none => 0)).sum) := by
  intro L
  induction L with
  | nil =>
    intro k hk
    simp only [List.foldl_nil, List.map_nil, List.sum_nil]
    omega
  | cons code L2 ih =>
    intro k hk
    rw [List.foldl_cons, List.map_cons, List.sum_cons]
    by_cases hmk : M ≤ k
    · have hkM : k = M := le_antisymm hk hmk
      subst hkM
      rw [if_pos hmk, ih k hk]
      omega
    · rw [if_neg hmk]
      rcases htp : collectNewOccupied tt occ (decompose code) with _ | newOcc
      · dsimp only
        rw [ih k hk]
        omega
      · dsimp only
        have hbt := IH (occ ++ newOcc) k hk
        rw [hbt, ih _ (Nat.min_le_left _ _)]
        omega

lemma codeBT_eq_min (tt : String → Option Timing) (codeMap : Nat → List String)
    (M : Nat) :
    ∀ (cs : List Nat) (occ : List (String × Int)) (k : Nat), k ≤ M →
      codeBT tt codeMap M cs occ k
        = min M (k + chainCountC tt (cs.map codeMap) occ) := by
  intro cs
  induction cs with
  | nil =>
    intro occ k hk
    rw [codeBT]
    simp only [List.map_nil, chainCountC]
    by_cases hmk : M ≤ k
    · rw [if_pos hmk]
      omega
    · rw [if_neg hmk]
      omega
  | cons cid rest ih =>
    intro occ k hk
    rw [codeBT, List.map_cons, chainCountC]
    by_cases hmk : M ≤ k
    · rw [if_pos hmk]
      omega
    · rw [if_neg hmk]
      exact codeFold_eq_min tt codeMap M rest occ
        (fun occ2 k2 hk2 => ih occ2 k2 hk2) (codeMap cid) k hk

lemma contains_iff_mem {α : Type _} [BEq α] [LawfulBEq α] {l : List α} {a : α} :
    l.contains a = true ↔ a ∈ l := List.elem_iff

lemma collectNewOccupied_eq (tt : String → Option Timing)
    (occ : List (String × Int)) :
    ∀ parts : List String,
      collectNewOccupied tt occ parts =
        if (cellKeysL tt parts).any (fun k => occ.contains k) then none
        else some (cellKeysL tt parts) := by
  intro parts
  induction parts with
  | nil => simp [collectNewOccupied, cellKeysL]
  | cons s rest ih =>
    rw [collectNewOccupied]
    rcases hts : tt s with _ | t
    · simp only [hts]
      have hkeys : cellKeysL tt (s :: rest) = cellKeysL tt rest := by
        simp [cellKeysL, List.filterMap_cons, hts]
      rw [hkeys, ih]
    · simp only [hts]
      have hkeys : cellKeysL tt (s :: rest) = (t.day, t.period) :: cellKeysL tt rest := by
        simp [cellKeysL, List.filterMap_cons, hts]
      rw [hkeys, List.any_cons]
      by_cases hc : occ.contains (t.day, t.period)
      · rw [if_pos hc]
        have hcond : (occ.contains (t.day, t.period) ||
            ((cellKeysL tt rest).any fun k => occ.contains k)) = true := by
          rw [hc, Bool.true_or]
        rw [if_pos hcond]
      · rw [if_neg hc, ih]
        by_cases ha : (cellKeysL tt rest).any (fun k => occ.contains k)
        · rw [if_pos ha]
          dsimp only
          have hcond : (occ.contains (t.day, t.period) ||
              ((cellKeysL tt rest).any fun k => occ.contains k)) = true := by
            rw [ha, Bool.or_true]
          rw [if_pos hcond]
        · rw [if_neg ha]
          dsimp only
          have hcond : ¬((occ.contains (t.day, t.period) ||
              ((cellKeysL tt rest).any fun k => occ.contains k)) = true) := by
            have hcf : occ.contains (t.day, t.period) = false := by
              rwa [Bool.not_eq_true] at hc
            have haf : ((cellKeysL tt rest).any fun k => occ.contains k) = false := by
              rwa [Bool.not_eq_true] at ha
            rw [hcf, haf]
            simp
          rw [if_neg hcond]

/-- Whether the cells of a slot stay clear of every mutual-exclusion group. -/
def avoids_mutual_groups (slot : Slot) : Bool :=
  MUTUAL_EXCLUSION_GROUPS.all (fun g =>
    !overlapsGroup slot.get_individual_slots g.1 &&
    !overlapsGroup slot.get_individual_slots g.2)

lemma check_clash_eq_keys (tt : String → Option Timing) (slot1 slot2 : Slot)
    (h : avoids_mutual_groups slot1 = true) :
    check_clash tt slot1 slot2
      = (slotKeys tt slot1).any (fun k => (slotKeys tt slot2).contains k) := by
  have hmx : (MUTUAL_EXCLUSION_GROUPS.any fun g =>
      (overlapsGroup slot1.get_individual_slots g.1 &&
        overlapsGroup slot2.get_individual_slots g.2) ||
      (overlapsGroup slot1.get_individual_slots g.2 &&
        overlapsGroup slot2.get_individual_slots g.1)) = false := by
    rw [List.any_eq_false]
    intro g hg
    rw [avoids_mutual_groups, List.all_eq_true] at h
    have := h g hg
    rw [Bool.and_eq_true, Bool.not_eq_true', Bool.not_eq_true'] at this
    simp [this.1, this.2]
  rw [check_clash]
  simp only [hmx, Bool.false_or]
  rw [Bool.eq_iff_iff]
  simp only [List.any_eq_true, slotKeys, cellKeysL, List.mem_filterMap, contains_iff_mem]
  constructor
  · rintro ⟨s1, hs1, s2, hs2, hm⟩
    rcases ht1 : tt s1 with _ | t1 <;> rw [ht1] at hm
    · exact absurd hm (by simp)
    · rcases ht2 : tt s2 with _ | t2 <;> rw [ht2] at hm
      · exact absurd hm (by simp)
      · rw [Bool.and_eq_true, beq_iff_eq, beq_iff_eq] at hm
        refine ⟨(t1.day, t1.period), ⟨s1, hs1, by rw [ht1]; rfl⟩, s2, hs2, ?_⟩
        rw [ht2, hm.1, hm.2]
        rfl
  · rintro ⟨k, ⟨s1, hs1, hk1⟩, s2, hs2, hk2⟩
    refine ⟨s1, hs1, s2, hs2, ?_⟩
    rcases ht1 : tt s1 with _ | t1 <;> rw [ht1] at hk1
    · exact absurd hk1 (by simp)
    · rcases ht2 : tt s2 with _ | t2 <;> rw [ht2] at hk2
      · exact absurd hk2 (by simp)
      · have hk1b : (t1.day, t1.period) = k := by simpa using hk1
        have hk2b : (t2.day, t2.period) = k := by simpa using hk2
        dsimp only
        rw [Bool.and_eq_true, beq_iff_eq, beq_iff_eq]
        rw [← hk1b] at hk2b
        exact ⟨congrArg Prod.fst hk2b.symm, congrArg Prod.snd hk2b.symm⟩

lemma clashesWithSelected_eq_keys (tt : String → Option Timing) (slot : Slot)
    (selected : List Slot) (h : avoids_mutual_groups slot = true) :
    clashesWithSelected tt slot selected
      = (slotKeys tt slot).any (fun k =>
          selected.any (fun u => (slotKeys tt u).contains k)) := by
  rw [Bool.eq_iff_iff]
  simp only [clashesWithSelected, List.any_eq_true]
  constructor
  · rintro ⟨u, hu, hcl⟩
    rw [check_clash_eq_keys tt slot u h] at hcl
    rw [List.any_eq_true] at hcl
    rcases hcl with ⟨k, hk, hk2⟩
    exact ⟨k, hk, u, hu, hk2⟩
  · rintro ⟨k, hk, u, hu, hk2⟩
    refine ⟨u, hu, ?_⟩
    rw [check_clash_eq_keys tt slot u h, List.any_eq_true]
    exact ⟨k, hk, hk2⟩

lemma tryPlace_eq_collect (tt : String → Option Timing) (slot : Slot)
    (selected : List Slot) (occS : List (String × Int))
    (havoid : avoids_mutual_groups slot = true)
    (hocc : ∀ k, k ∈ occS ↔ ∃ u ∈ selected, k ∈ slotKeys tt u) :
    tryPlace tt slot selected occS
      = collectNewOccupied tt occS slot.get_individual_slots := by
  rw [tryPlace]
  by_cases hc : clashesWithSelected tt slot selected
  · rw [if_pos hc, collectNewOccupied_eq]
    rw [clashesWithSelected_eq_keys tt slot selected havoid, List.any_eq_true] at hc
    rcases hc with ⟨k, hk, hk2⟩
    rw [List.any_eq_true] at hk2
    rcases hk2 with ⟨u, hu, hk3⟩
    have hkocc : k ∈ occS := (hocc k).2 ⟨u, hu, contains_iff_mem.1 hk3⟩
    rw [if_pos]
    rw [List.any_eq_true]
    exact ⟨k, hk, contains_iff_mem.2 hkocc⟩
  · rw [if_neg hc]

lemma any_contains_congr {l1 l2 : List (String × Int)}
    (h : ∀ k, k ∈ l1 ↔ k ∈ l2) (K : List (String × Int)) :
    (K.any fun k => l1.contains k) = (K.any fun k => l2.contains k) := by
  rw [Bool.eq_iff_iff]
  simp only [List.any_eq_true, contains_iff_mem]
  constructor
  · rintro ⟨k, hk, hm⟩
    exact ⟨k, hk, (h k).1 hm⟩
  · rintro ⟨k, hk, hm⟩
    exact ⟨k, hk, (h k).2 hm⟩

lemma branch_reduce (tt : String → Option Timing) (u : Slot) (chosen : List Slot)
    (occS occC : List (String × Int))
    (havoid : avoids_mutual_groups u = true)
    (hocc : ∀ k, k ∈ occS ↔ k ∈ occC)
    (hchosen : ∀ k, k ∈ occS ↔ ∃ v ∈ chosen, k ∈ slotKeys tt v) :
    tryPlace tt u chosen occS =
      (if ((slotKeys tt u).any fun k => occS.contains k) then none
        else some (slotKeys tt u)) ∧
    collectNewOccupied tt occC (decompose u.slot_code) =
      (if ((slotKeys tt u).any fun k => occS.contains k) then none
        else some (slotKeys tt u)) := by
  constructor
  · rw [tryPlace_eq_collect tt u chosen occS havoid hchosen,
      collectNewOccupied_eq]
    rfl
  · rw [collectNewOccupied_eq]
    have hk : cellKeysL tt (decompose u.slot_code) = slotKeys tt u := rfl
    rw [hk, any_contains_congr (fun k => (hocc k).symm) (slotKeys tt u)]

lemma hocc_extend {occS occC K : List (String × Int)}
    (h : ∀ k, k ∈ occS ↔ k ∈ occC) :
    ∀ k, k ∈ occS ++ K ↔ k ∈ occC ++ K := by
  intro k
  simp only [List.mem_append]
  rw [h k]

lemma hchosen_extend {tt : String → Option Timing} {occS : List (String × Int)}
    {chosen : List Slot} (u : Slot)
    (h : ∀ k, k ∈ occS ↔ ∃ v ∈ chosen, k ∈ slotKeys tt v) :
    ∀ k, k ∈ occS ++ slotKeys tt u ↔ ∃ v ∈ chosen ++ [u], k ∈ slotKeys tt v := by
  intro k
  simp only [List.mem_append, List.mem_singleton, h k]
  constructor
  · rintro (⟨v, hv, hk⟩ | hk)
    · exact ⟨v, Or.inl hv, hk⟩
    · exact ⟨u, Or.inr rfl, hk⟩
  · rintro ⟨v, hv | hv, hk⟩
    · exact Or.inl ⟨v, hv, hk⟩
    · subst hv
      exact Or.inr hk

lemma sum_le_of_nodup_witness {β : Type _} [DecidableEq β] (f : String → Nat)
    (g : β → Nat) (key : β → String) :
    ∀ (codes : List String) (slots : List β), codes.Nodup →
      (∀ code ∈ codes, ∃ u ∈ slots, key u = code ∧ f code ≤ g u) →
      (codes.map f).sum ≤ (slots.map g).sum := by
  intro codes
  induction codes with
  | nil =>
    intro slots _ _
    simp
  | cons c cs ih =>
    intro slots hnd hwit
    obtain ⟨u, hu, hku, hfu⟩ := hwit c (List.mem_cons_self c cs)
    have hperm : slots.Perm (u :: slots.erase u) := List.perm_cons_erase hu
    rw [List.map_cons, List.sum_cons, (hperm.map g).sum_eq, List.map_cons,
      List.sum_cons]
    have hnd2 := List.nodup_cons.1 hnd
    refine Nat.add_le_add hfu (ih (slots.erase u) hnd2.2 ?_)
    intro c2 hc2
    obtain ⟨u2, hu2, hku2, hfu2⟩ := hwit c2 (List.mem_cons_of_mem _ hc2)
    refine ⟨u2, ?_, hku2, hfu2⟩
    have hne : u2 ≠ u := by
      intro he
      subst he
      rw [hku2] at hku
      subst hku
      exact hnd2.1 hc2
    exact (List.mem_erase_of_ne hne).2 hu2

lemma chainCount_le (tt : String → Option Timing) :
    ∀ (slotLists : List (List Slot)) (codeLists : List (List String)),
      List.Forall₂ (fun slots codes => codes.Nodup ∧
        ∀ code, code ∈ codes ↔ ∃ u ∈ slots, u.slot_code = code) slotLists codeLists →
      (∀ slots ∈ slotLists, ∀ u ∈ slots, avoids_mutual_groups u = true) →
      ∀ (chosen : List Slot) (occS occC : List (String × Int)),
        (∀ k, k ∈ occS ↔ k ∈ occC) →
        (∀ k, k ∈ occS ↔ ∃ v ∈ chosen, k ∈ slotKeys tt v) →
        chainCountC tt codeLists occC ≤ chainCountS tt slotLists chosen occS := by
  intro slotLists codeLists hrel
  induction hrel with
  | nil =>
    intro _ chosen occS occC _ _
    rw [chainCountC, chainCountS]
  | @cons slots codes sl2 cl2 hR hrest ih =>
    intro hmx chosen occS occC hocc hchosen
    rw [chainCountC, chainCountS]
    refine sum_le_of_nodup_witness _ _ Slot.slot_code codes slots hR.1 ?_
    intro code hcode
    obtain ⟨u, hu, hcu⟩ := (hR.2 code).1 hcode
    refine ⟨u, hu, hcu, ?_⟩
    have havoid : avoids_mutual_groups u = true :=
      hmx slots (List.mem_cons_self _ _) u hu
    obtain ⟨h1, h2⟩ := branch_reduce tt u chosen occS occC havoid hocc hchosen
    rw [← hcu, h1, h2]
    by_cases hcond : ((slotKeys tt u).any fun k => occS.contains k)
    · rw [if_pos hcond]
    · rw [if_neg hcond]
      dsimp only
      exact ih (fun sl hsl => hmx sl (List.mem_cons_of_mem _ hsl)) (chosen ++ [u])
        (occS ++ slotKeys tt u) (occC ++ slotKeys tt u) (hocc_extend hocc)
        (hchosen_extend u hchosen)

lemma chainCount_eq (tt : String → Option Timing) :
    ∀ (slotLists : List (List Slot)) (codeLists : List (List String)),
      List.Forall₂ (fun slots codes =>
        codes.Perm (slots.map Slot.slot_code)) slotLists codeLists →
      (∀ slots ∈ slotLists, ∀ u ∈ slots, avoids_mutual_groups u = true) →
      ∀ (chosen : List Slot) (occS occC : List (String × Int)),
        (∀ k, k ∈ occS ↔ k ∈ occC) →
        (∀ k, k ∈ occS ↔ ∃ v ∈ chosen, k ∈ slotKeys tt v) →
        chainCountC tt codeLists occC = chainCountS tt slotLists chosen occS := by
  intro slotLists codeLists hrel
  induction hrel with
  | nil =>
    intro _ chosen occS occC _ _
    rw [chainCountC, chainCountS]
  | @cons slots codes sl2 cl2 hR hrest ih =>
    intro hmx chosen occS occC hocc hchosen
    rw [chainCountC, chainCountS]
    rw [(hR.map _).sum_eq, List.map_map]
    refine congrArg List.sum (List.map_congr_left ?_)
    intro u hu
    have havoid : avoids_mutual_groups u = true :=
      hmx slots (List.mem_cons_self _ _) u hu
    obtain ⟨h1, h2⟩ := branch_reduce tt u chosen occS occC havoid hocc hchosen
    have hcomp : (Function.comp (fun code =>
        match collectNewOccupied tt occC (decompose code) with
        | some newOcc => chainCountC tt cl2 (occC ++ newOcc)
        | none => 0) Slot.slot_code) u
        = (match collectNewOccupied tt occC (decompose u.slot_code) with
          | some newOcc => chainCountC tt cl2 (occC ++ newOcc)
          | none => 0) := rfl
    rw [hcomp, h1, h2]
    by_cases hcond : ((slotKeys tt u).any fun k => occS.contains k)
    · rw [if_pos hcond]
    · rw [if_neg hcond]
      dsimp only
      exact ih (fun sl hsl => hmx sl (List.mem_cons_of_mem _ hsl)) (chosen ++ [u])
        (occS ++ slotKeys tt u) (occC ++ slotKeys tt u) (hocc_extend hocc)
        (hchosen_extend u hchosen)

lemma filter_id_eq_singleton :
    ∀ (courses : List Course), (courses.map Course.id).Nodup →
      ∀ c ∈ courses, courses.filter (fun x => x.id == c.id) = [c] := by
  intro courses
  induction courses with
  | nil =>
    intro _ c hc
    exact absurd hc (List.not_mem_nil c)
  | cons d cs ih =>
    intro hnd c hc
    rw [List.map_cons, List.nodup_cons] at hnd
    rcases List.mem_cons.1 hc with h | h
    · subst h
      rw [List.filter_cons]
      have : (c.id == c.id) = true := beq_self_eq_true _
      rw [if_pos this]
      have hnone : cs.filter (fun x => x.id == c.id) = [] := by
        rw [List.filter_eq_nil_iff]
        intro x hx
        intro hbeq
        rw [beq_iff_eq] at hbeq
        exact hnd.1 (hbeq ▸ List.mem_map_of_mem Course.id hx)
      rw [hnone]
    · rw [List.filter_cons]
      have hne : (d.id == c.id) = false := by
        rw [beq_eq_false_iff_ne]
        intro hbeq
        exact hnd.1 (hbeq ▸ List.mem_map_of_mem Course.id h)
      rw [hne]
      simp only [Bool.false_eq_true, if_false]
      exact ih hnd.2 c h

lemma chainCountS_zero_of_empty (tt : String → Option Timing) :
    ∀ (slotLists : List (List Slot)) (chosen : List Slot)
      (occ : List (String × Int)), (∃ l ∈ slotLists, l = []) →
      chainCountS tt slotLists chosen occ = 0 := by
  intro slotLists
  induction slotLists with
  | nil =>
    rintro chosen occ ⟨l, hl, _⟩
    exact absurd hl (List.not_mem_nil l)
  | cons slots rest ih =>
    rintro chosen occ ⟨l, hl, hle⟩
    rw [chainCountS]
    rcases List.mem_cons.1 hl with h | h
    · subst h
      subst hle
      simp
    · apply List.sum_eq_zero
      intro x hx
      rcases List.mem_map.1 hx with ⟨slot, _, hval⟩
      rw [← hval]
      rcases tryPlace tt slot chosen occ with _ | newOcc
      · rfl
      · exact ih (chosen ++ [slot]) (occ ++ newOcc) ⟨l, h, hle⟩

lemma code_map_eq (prefs : GenerationPreferences) (courses : List Course)
    (hids : (courses.map Course.id).Nodup) :
    ∀ c ∈ courses, code_map prefs courses c.id = course_valid_codes prefs c := by
  intro c hc
  rw [code_map, filter_id_eq_singleton courses hids c hc]
  rfl

/-- A small concrete timing table used by the concrete instances below
(atomic codes map to fixed (day, period) cells, as the static table does). -/
def sampleTiming : String → Option Timing := fun s =>
  if s == "X1" then some ⟨"MON", 1⟩
  else if s == "X2" then some ⟨"MON", 2⟩
  else if s == "X3" then some ⟨"MON", 3⟩
  else if s == "X7" then some ⟨"MON", 7⟩
  else if s == "Y1" then some ⟨"TUE", 1⟩
  else if s == "C11" then some ⟨"MON", 3⟩
  else if s == "A21" then some ⟨"MON", 4⟩
  else none

/-- Default preferences (all documented defaults). -/
def defaultPrefs : GenerationPreferences := {}

/-- The identity shuffle outcome. -/
def idShuffle : Nat → List Slot → List Slot := fun _ l => l

def refSlotA : Slot := ⟨101, "X1", "V", some ⟨1, "CA", "CourseA", 3⟩, some "FA"⟩
def refSlotB : Slot := ⟨201, "X1", "V", some ⟨2, "CB", "CourseB", 3⟩, some "FB"⟩
def refSlotC : Slot := ⟨301, "X2", "V", some ⟨3, "CC", "CourseC", 3⟩, some "FC"⟩
def altSlotC : Slot := ⟨302, "X3", "V", some ⟨3, "CC", "CourseC", 3⟩, some "FD"⟩
def courseA : Course := ⟨1, "CA", "CourseA", 3, [refSlotA]⟩
def courseB : Course := ⟨2, "CB", "CourseB", 3, [refSlotB]⟩
def courseC : Course := ⟨3, "CC", "CourseC", 3, [refSlotC, altSlotC]⟩
def mapABC : Nat → List Slot := fun cid =>
  if cid == 1 then [refSlotA]
  else if cid == 2 then [refSlotB]
  else if cid == 3 then [refSlotC, altSlotC]
  else []

def slotC11 : Slot := ⟨11, "C11", "V1", some ⟨1, "CS1", "CourseOne", 3⟩, some "F1"⟩
def slotA21 : Slot := ⟨21, "A21", "V2", some ⟨2, "CS2", "CourseTwo", 3⟩, some "F2"⟩
def courseC11 : Course := ⟨1, "CS1", "CourseOne", 3, [slotC11]⟩
def courseA21 : Course := ⟨2, "CS2", "CourseTwo", 3, [slotA21]⟩

def wSlot1a : Slot := ⟨31, "X1", "V", some ⟨1, "CW1", "W1", 3⟩, some "G1"⟩
def wSlot1b : Slot := ⟨32, "X2", "V", some ⟨1, "CW1", "W1", 3⟩, some "G2"⟩
def wSlot2 : Slot := ⟨41, "X3", "V", some ⟨2, "CW2", "W2", 3⟩, some "G3"⟩
def wCourse1 : Course := ⟨1, "CW1", "W1", 3, [wSlot1a, wSlot1b]⟩
def wCourse2 : Course := ⟨2, "CW2", "W2", 3, [wSlot2]⟩
def wMap : Nat → List Slot := fun cid =>
  if cid == 1 then [wSlot1a, wSlot1b] else if cid == 2 then [wSlot2] else []

def gapSlot : Slot := ⟨7, "X1+X3", "V", some ⟨1, "CG", "CourseG", 1⟩, some "FG"⟩
def gapCourse : Course := ⟨1, "CG", "CourseG", 1, [gapSlot]⟩
def gapPlan : AttemptPlan := ⟨[1], fun _ => [gapSlot]⟩

def facSlotA : Slot := ⟨1, "X1", "V", some ⟨1, "CA", "CourseA", 3⟩, some "FA"⟩
def facSlotB : Slot := ⟨2, "X1", "V", some ⟨1, "CA", "CourseA", 3⟩, some "FB"⟩
def facMap : Nat → List Slot := fun cid => if cid == 1 then [facSlotA, facSlotB] else []
def pickPlanA : AttemptPlan := ⟨[1], fun _ => [facSlotA]⟩
def pickPlanB : AttemptPlan := ⟨[1], fun _ => [facSlotB]⟩

def simRef1 : Slot := ⟨11, "X1", "V", some ⟨1, "CA", "CourseA", 3⟩, some "FA"⟩
def simAlt1 : Slot := ⟨12, "X2", "V", some ⟨1, "CA", "CourseA", 3⟩, some "FB"⟩
def simRef2 : Slot := ⟨21, "X2", "V", some ⟨2, "CB", "CourseB", 3⟩, some "FC"⟩
def simAlt2 : Slot := ⟨22, "X1", "V", some ⟨2, "CB", "CourseB", 3⟩, some "FD"⟩
def simCourse1 : Course := ⟨1, "CA", "CourseA", 3, [simRef1, simAlt1]⟩
def simCourse2 : Course := ⟨2, "CB", "CourseB", 3, [simRef2, simAlt2]⟩
def simMap : Nat → List Slot := fun cid =>
  if cid == 1 then [simRef1, simAlt1] else if cid == 2 then [simRef2, simAlt2] else []

def avoidSlot : Slot := ⟨5, "X1", "V", some ⟨1, "CA", "CourseA", 3⟩, some "DrAvoid"⟩
def avoidCourse : Course := ⟨1, "CA", "CourseA", 3, [avoidSlot]⟩
def avoidPrefs : GenerationPreferences := { avoided_faculties := ["DrAvoid"] }

def morningPrefs : GenerationPreferences := { time_mode := "morning" }
def mSlot1 : Slot := ⟨61, "X1", "V", some ⟨1, "CM", "M", 1⟩, some "FM"⟩
def mSlot7 : Slot := ⟨62, "X7", "V", some ⟨1, "CM", "M", 1⟩, some "FM"⟩

def rankPrefs : GenerationPreferences :=
  { course_faculty_preferences := [(1, ["P0", "P1", "P2", "P3"])] }
def rankSlot : Slot := ⟨71, "X1", "V", some ⟨1, "CR", "R", 3⟩, some "P3"⟩
def rankListNo : List (Nat × List String) := [(1, ["P0", "P1", "P2"])]

def dSlot : Slot := ⟨81, "X1", "V", some ⟨1, "CD", "D", 3⟩, some "FD1"⟩
def dCourse : Course := ⟨1, "CD", "D", 3, [dSlot]⟩
def dMap : Nat → List Slot := fun cid => if cid == 1 then [dSlot] else []
def dPlan : DiversePlan := ⟨[1], dMap⟩

def emptyPlan : AttemptPlan := ⟨[], fun _ => []⟩

lemma gapSlot_cells : gapSlot.get_individual_slots = ["X1", "X3"] := by decide

lemma mode_none_ne : ("none" = "morning") = False ∧ ("none" = "evening") = False ∧
    ("none" = "afternoon") = False ∧ ("none" = "middle") = False := by
  refine ⟨?_, ?_, ?_, ?_⟩ <;> simp

lemma gapSlot_score : score_slot sampleTiming defaultPrefs gapSlot = 50 := by
  simp only [score_slot, gapSlot_cells]
  simp [cell_time_score, faculty_score, effectiveTimeMode, credit_weight,
    sampleTiming, defaultPrefs, gapSlot]
  simp [mode_none_ne.1, mode_none_ne.2.1, mode_none_ne.2.2.1, mode_none_ne.2.2.2]

lemma gap_total_score :
    calculate_solution_total_score sampleTiming defaultPrefs [gapSlot] = 50 := by
  simp [calculate_solution_total_score, gapSlot_score]

lemma gap_day_periods :
    day_periods sampleTiming [gapSlot] = [("MON", [1, 3])] := by
  simp only [day_periods, List.foldl, gapSlot_cells]
  simp [addDayPeriod, sampleTiming]

lemma gap_penalty_score :
    calculate_solution_score sampleTiming defaultPrefs [gapSlot] = 48 := by
  simp only [calculate_solution_score, total_gaps, gap_day_periods]
  simp only [List.map_cons, List.map_nil]
  have hsat : saturday_classes sampleTiming [gapSlot] = 0 := by decide
  have hgaps : gapsOf [1, 3] = 1 := by decide
  rw [hsat, hgaps]
  simp [gapSlot_score]
  norm_num

instance (tt : String → Option Timing) (l : List Slot) :
    Decidable (ClashFreeSlots tt l) :=
  inferInstanceAs (Decidable (l.Pairwise fun a b => check_clash tt a b = false))

instance (tt : String → Option Timing) : DecidablePred (solutionClashFree tt) :=
  fun sol => inferInstanceAs (Decidable (ClashFreeSlots tt sol.slots))

/-- C1 (amended): every Solution returned by generate, generate_batch,
generate_ranked_pool and generate_diverse is pairwise clash-free under
`_check_clash`, for every input and every random draw; the original claim
also covered generate_similar, which fails it because the fixed reference
slots are never re-checked against each other (see the counterexample). -/
theorem C1_no_clash_amended :
    (∀ (tt : String → Option Timing) (prefs : GenerationPreferences)
      (slotMap : Nat → List Slot) (courses : List Course) (courseOrder : List Nat)
      (limit offset : Nat),
      (generate tt prefs slotMap courses courseOrder limit offset).Forall
        (solutionClashFree tt)) ∧
    (∀ (tt : String → Option Timing) (prefs : GenerationPreferences)
      (slotMap : Nat → List Slot) (courses : List Course) (courseOrder : List Nat)
      (limit offset : Nat),
      (generate_batch tt prefs slotMap courses courseOrder limit offset).Forall
        (solutionClashFree tt)) ∧
    (∀ (tt : String → Option Timing) (prefs : GenerationPreferences)
      (courses : List Course) (shuffle : Nat → List Slot → List Slot)
      (plans : List AttemptPlan) (target_size : Nat),
      (generate_ranked_pool tt prefs courses shuffle plans target_size).Forall
        (solutionClashFree tt)) ∧
    (∀ (tt : String → Option Timing) (prefs : GenerationPreferences)
      (courses : List Course) (baseMap : Nat → List Slot)
      (plans : List DiversePlan) (limit : Nat) (min_diversity : Rat),
      (generate_diverse tt prefs courses baseMap plans limit min_diversity).Forall
        (solutionClashFree tt)) := by
  refine ⟨?_, ?_, ?_, ?_⟩
  · intro tt prefs slotMap courses courseOrder limit offset
    rw [List.forall_iff_forall_mem]
    exact generate_clashFree tt prefs slotMap courses courseOrder limit offset
  · intro tt prefs slotMap courses courseOrder limit offset
    rw [List.forall_iff_forall_mem]
    exact generate_batch_clashFree tt prefs slotMap courses courseOrder limit offset
  · intro tt prefs courses shuffle plans target_size
    rw [List.forall_iff_forall_mem]
    exact generate_ranked_pool_clashFree tt prefs courses shuffle plans target_size
  · intro tt prefs courses baseMap plans limit min_diversity
    rw [List.forall_iff_forall_mem]
    exact generate_diverse_clashFree tt prefs courses baseMap plans limit min_diversity

/-- C1 (counterexample): with a reference whose two fixed slots share the
cell X1 (same (MON, 1)), generate_similar returns a Solution containing
that clashing pair, so the claim as stated — the no-clash invariant for
every generation entry point including generate_similar — is false. -/
theorem C1_no_clash_counterexample :
    ¬ (generate_similar sampleTiming defaultPrefs mapABC [courseA, courseB, courseC]
        [101, 201, 301] 5).Forall (solutionClashFree sampleTiming) := by
  decide

/-- C3 (amended): generate_ranked_pool scores every pooled solution with
`_calculate_solution_total_score` — the penalty-free mean of its slot
scores, not the penalty-bearing `_calculate_solution_score` variant —
then stable-sorts descending by that score and returns at most
`target_size` solutions. -/
theorem C3_pool_scoring_amended :
    ∀ (tt : String → Option Timing) (prefs : GenerationPreferences)
      (courses : List Course) (shuffle : Nat → List Slot → List Slot)
      (plans : List AttemptPlan) (target_size : Nat),
      (generate_ranked_pool tt prefs courses shuffle plans target_size).Forall
        (fun sol => sol.score = calculate_solution_total_score tt prefs sol.slots) ∧
      (generate_ranked_pool tt prefs courses shuffle plans target_size).Pairwise
        (fun a b => b.score ≤ a.score) ∧
      (generate_ranked_pool tt prefs courses shuffle plans target_size).length
        ≤ target_size := by
  intro tt prefs courses shuffle plans target_size
  refine ⟨?_, ?_, ?_⟩
  · rw [List.forall_iff_forall_mem]
    exact generate_ranked_pool_scores tt prefs courses shuffle plans target_size
  · rw [generate_ranked_pool]
    exact pairwise_score_sorted_take
  · rw [generate_ranked_pool]
    exact List.length_take_le _ _

/-- C3 (counterexample): on a course whose single slot spans (MON, 1) and
(MON, 3), the pooled solution is stored with score 50 — the penalty-free
mean — while the penalty-inclusive variant gives 48 (50 minus 2 for the
one-period gap), so generate_ranked_pool does not score with the
penalty-inclusive variant. -/
theorem C3_pool_scoring_counterexample :
    (generate_ranked_pool sampleTiming defaultPrefs [gapCourse] idShuffle
        [gapPlan] 100).map TimetableSolution.slots = [[gapSlot]] ∧
    (generate_ranked_pool sampleTiming defaultPrefs [gapCourse] idShuffle
        [gapPlan] 100).map TimetableSolution.score
      = [calculate_solution_total_score sampleTiming defaultPrefs [gapSlot]] ∧
    calculate_solution_total_score sampleTiming defaultPrefs [gapSlot] = 50 ∧
    calculate_solution_score sampleTiming defaultPrefs [gapSlot] = 48 ∧
    (50 : Rat) ≠ 48 := by
  refine ⟨by decide, by rfl, gap_total_score, gap_penalty_score, by norm_num⟩

/-- C4 (amended): within one generate_ranked_pool call the pool is
deduplicated by the coarse time-distribution signature
(`_get_timetable_signature`), not by slot-identity set: no two collected
pool entries (and hence no two returned solutions) share a signature, and
collection stops at `target_pool` entries; complete clash-free assignments
with distinct slot-identity sets but equal signatures are merged (see the
counterexample). -/
theorem C4_pool_dedup_amended :
    (∀ (tt : String → Option Timing) (slotMap : Nat → List Slot)
      (numCourses target_pool : Nat) (plans : List AttemptPlan),
      (buildPool tt slotMap numCourses target_pool plans [] []).Pairwise
        (fun a b => get_timetable_signature tt a ≠ get_timetable_signature tt b) ∧
      (buildPool tt slotMap numCourses target_pool plans [] []).length
        ≤ target_pool) ∧
    (∀ (tt : String → Option Timing) (prefs : GenerationPreferences)
      (courses : List Course) (shuffle : Nat → List Slot → List Slot)
      (plans : List AttemptPlan) (target_size : Nat),
      (generate_ranked_pool tt prefs courses shuffle plans target_size).Pairwise
        (fun a b => get_timetable_signature tt a.slots
          ≠ get_timetable_signature tt b.slots)) := by
  constructor
  · intro tt slotMap numCourses target_pool plans
    exact buildPool_sig_distinct tt slotMap numCourses target_pool plans [] []
      (fun sl hsl => absurd hsl (List.not_mem_nil sl)) List.Pairwise.nil
      (by simp)
  · intro tt prefs courses shuffle plans target_size
    rw [generate_ranked_pool]
    have hpool := (buildPool_sig_distinct tt
      (build_slot_map tt prefs shuffle true true courses) courses.length 20000
      plans [] [] (fun sl hsl => absurd hsl (List.not_mem_nil sl))
      List.Pairwise.nil (by simp)).1
    have hmap : (List.map (fun slots =>
        (⟨slots, calculate_solution_total_score tt prefs slots,
          totalCredits slots⟩ : TimetableSolution))
        (buildPool tt (build_slot_map tt prefs shuffle true true courses)
          courses.length 20000 plans [] [])).Pairwise
        (fun a b => get_timetable_signature tt a.slots
          ≠ get_timetable_signature tt b.slots) := by
      rw [List.pairwise_map]
      exact hpool
    have hsorted := ((stableSortBy_perm (fun a b => decide (b.score ≤ a.score))
      _).pairwise_iff (fun h => Ne.symm h)).2 hmap
    exact List.Pairwise.sublist (List.take_sublist _ _) hsorted

/-- C4 (counterexample): two faculty variants of the same slot code (equal
times, different slot ids) give two complete clash-free assignments with
distinct slot-identity sets; the second attempt produces one, yet the pool
keeps only the first because their time-distribution signatures coincide —
distinct-identity solutions are merged as duplicates. -/
theorem C4_pool_dedup_counterexample :
    buildPool sampleTiming facMap 1 20000 [pickPlanA, pickPlanB] [] [] = [[facSlotA]] ∧
    attemptRun sampleTiming facMap pickPlanB.picks pickPlanB.order [] []
      = some [facSlotB] ∧
    [facSlotB].length = 1 ∧
    ClashFreeSlots sampleTiming [facSlotB] ∧
    ([facSlotB].map Slot.id).toFinset ≠ ([facSlotA].map Slot.id).toFinset := by
  decide

/-- C5: evaluation at the failing input. Both single-course variations of
the reference clash with the remaining reference slot, while the
assignment varying both courses ([simAlt1, simAlt2]) is complete,
clash-free, drawn from the candidate lists and distinct from the
reference; the claim (and the docstring) says such a 2-course variation
must be returned, but generate_similar returns no solution at all: the
vary-2 branch can never satisfy its completion-length test. -/
theorem C5_similar_vary_two_bug :
    generate_similar sampleTiming defaultPrefs simMap [simCourse1, simCourse2]
        [11, 21] 5 = [] ∧
    simAlt1 ∈ simMap 1 ∧ simAlt2 ∈ simMap 2 ∧
    ClashFreeSlots sampleTiming [simAlt1, simAlt2] ∧
    [simAlt1, simAlt2].length = [simCourse1, simCourse2].length ∧
    ([simAlt1, simAlt2].map Slot.id).toFinset ≠ ([11, 21] : List Nat).toFinset := by
  decide

/-- C8 (amended): for an empty course list, both counters return 0 and
generate, generate_batch, generate_diverse and generate_similar return the
empty list; generate_ranked_pool, however, returns a single empty-slotted
solution once any attempt runs (see the counterexample), so the original
universal clause over every generation entry point fails. -/
theorem C8_empty_courses_amended :
    ∀ (tt : String → Option Timing) (prefs : GenerationPreferences)
      (slotMap baseMap simMap2 : Nat → List Slot) (M : Nat)
      (courseOrder refIds : List Nat) (limit offset : Nat)
      (dplans : List DiversePlan) (mind : Rat),
      count_solutions tt slotMap [] M = 0 ∧
      count_distinct_solutions tt prefs [] M = 0 ∧
      generate tt prefs slotMap [] courseOrder limit offset = [] ∧
      generate_batch tt prefs slotMap [] courseOrder limit offset = [] ∧
      generate_diverse tt prefs [] baseMap dplans limit mind = [] ∧
      generate_similar tt prefs simMap2 [] refIds limit = [] := by
  intro tt prefs slotMap baseMap simMap2 M courseOrder refIds limit offset dplans mind
  refine ⟨rfl, rfl, rfl, ?_, rfl, rfl⟩
  rw [generate_batch, generate]
  rfl

/-- C8 (counterexample): with an empty course list and one attempt (whose
course order is the shuffle of the empty id list), generate_ranked_pool
returns one solution with an empty slot list rather than an empty list. -/
theorem C8_empty_courses_counterexample :
    (generate_ranked_pool sampleTiming defaultPrefs [] idShuffle [emptyPlan]
        100).length = 1 ∧
    (generate_ranked_pool sampleTiming defaultPrefs [] idShuffle [emptyPlan]
        100).map TimetableSolution.slots = [[]] := by
  decide

/-- C2 (amended): count_distinct_solutions checks only time overlap (the
source skips the mutual-exclusion block), so the claimed inequality holds
under the proviso that no candidate slot meets a mutual-exclusion group;
then over any preference-filtered slot map,
count_distinct_solutions ≤ count_solutions, with equality whenever no two
candidate slots of a single course share a slot code. Without the proviso
the inequality can fail (see the counterexample). -/
theorem C2_distinct_count_amended (tt : String → Option Timing)
    (prefs : GenerationPreferences) (courses : List Course)
    (slotMap : Nat → List Slot) (M : Nat)
    (hids : (courses.map Course.id).Nodup)
    (hrel : ∀ c ∈ courses, (slotMap c.id).Perm
      (c.slots.filter (fun s => !should_exclude_slot prefs s)))
    (hmx : ∀ c ∈ courses, ∀ u ∈ c.slots, avoids_mutual_groups u = true) :
    count_distinct_solutions tt prefs courses M
      ≤ count_solutions tt slotMap courses M ∧
    ((∀ c ∈ courses, ((c.slots.filter
        (fun s => !should_exclude_slot prefs s)).map Slot.slot_code).Nodup) →
      count_distinct_solutions tt prefs courses M
        = count_solutions tt slotMap courses M) := by
  by_cases hemp : courses.isEmpty
  · rw [count_distinct_solutions, count_solutions, if_pos hemp, if_pos hemp]
    exact ⟨le_refl 0, fun _ => rfl⟩
  · have hcount : count_solutions tt slotMap courses M
        = min M (chainCountS tt ((courses.map Course.id).map slotMap) [] []) := by
      rw [count_solutions, if_neg hemp,
        countBT_eq_min tt slotMap M (courses.map Course.id) [] [] 0 (Nat.zero_le M),
        Nat.zero_add]
    have hmx2 : ∀ slots ∈ (courses.map Course.id).map slotMap,
        ∀ u ∈ slots, avoids_mutual_groups u = true := by
      intro slots hslots u hu
      rw [List.map_map] at hslots
      rcases List.mem_map.1 hslots with ⟨c, hc, hEq⟩
      rw [← hEq] at hu
      have hu2 := ((hrel c hc).mem_iff).1 hu
      exact hmx c hc u (List.mem_filter.1 hu2).1
    by_cases hec : courses.any (fun c => (course_valid_codes prefs c).isEmpty)
    · have hdz : count_distinct_solutions tt prefs courses M = 0 := by
        rw [count_distinct_solutions, if_neg hemp, if_pos hec]
      rcases List.any_eq_true.1 hec with ⟨c, hc, hcemp⟩
      have hcnil : course_valid_codes prefs c = [] := by
        rwa [List.isEmpty_iff] at hcemp
      have hfnil : c.slots.filter (fun s => !should_exclude_slot prefs s) = [] := by
        rcases hfe : c.slots.filter (fun s => !should_exclude_slot prefs s)
          with _ | ⟨x, xs⟩
        · rfl
        · exfalso
          have hx : x.slot_code ∈ course_valid_codes prefs c := by
            rw [course_valid_codes, List.mem_dedup, hfe]
            exact List.mem_map_of_mem Slot.slot_code (List.mem_cons_self x xs)
          rw [hcnil] at hx
          exact List.not_mem_nil _ hx
      have hsnil : slotMap c.id = [] := by
        have := hrel c hc
        rw [hfnil] at this
        exact this.eq_nil
      have hzero : chainCountS tt ((courses.map Course.id).map slotMap) [] [] = 0 := by
        refine chainCountS_zero_of_empty tt _ [] [] ⟨slotMap c.id, ?_, hsnil⟩
        exact List.mem_map_of_mem slotMap (List.mem_map_of_mem Course.id hc)
      have hcz : count_solutions tt slotMap courses M = 0 := by
        rw [hcount, hzero, Nat.min_zero]
      rw [hdz, hcz]
      exact ⟨le_refl 0, fun _ => rfl⟩
    · have hdist : count_distinct_solutions tt prefs courses M
          = min M (chainCountC tt
              ((courses.map Course.id).map (code_map prefs courses)) []) := by
        rw [count_distinct_solutions, if_neg hemp, if_neg hec,
          codeBT_eq_min tt (code_map prefs courses) M (courses.map Course.id) [] 0
            (Nat.zero_le M), Nat.zero_add]
      have hocc0 : ∀ k : String × Int, k ∈ ([] : List (String × Int))
          ↔ k ∈ ([] : List (String × Int)) := fun _ => Iff.rfl
      have hchosen0 : ∀ k : String × Int, k ∈ ([] : List (String × Int))
          ↔ ∃ v ∈ ([] : List Slot), k ∈ slotKeys tt v := by
        intro k
        simp
      constructor
      · have hforall : List.Forall₂ (fun slots codes => codes.Nodup ∧
            ∀ code, code ∈ codes ↔ ∃ u ∈ slots, u.slot_code = code)
            ((courses.map Course.id).map slotMap)
            ((courses.map Course.id).map (code_map prefs courses)) := by
          rw [List.map_map, List.map_map, List.forall₂_map_left_iff,
            List.forall₂_map_right_iff, List.forall₂_same]
          intro c hc
          rw [Function.comp_apply, Function.comp_apply,
            code_map_eq prefs courses hids c hc]
          refine ⟨List.nodup_dedup _, ?_⟩
          intro code
          rw [course_valid_codes, List.mem_dedup]
          constructor
          · intro hcode
            rcases List.mem_map.1 hcode with ⟨u, hu, hcu⟩
            exact ⟨u, ((hrel c hc).mem_iff).2 hu, hcu⟩
          · rintro ⟨u, hu, hcu⟩
            exact List.mem_map.2 ⟨u, ((hrel c hc).mem_iff).1 hu, hcu⟩
        have hle := chainCount_le tt _ _ hforall hmx2 [] [] [] hocc0 hchosen0
        rw [hdist, hcount]
        omega
      · intro hcodes
        have hforall : List.Forall₂ (fun slots codes =>
            codes.Perm (slots.map Slot.slot_code))
            ((courses.map Course.id).map slotMap)
            ((courses.map Course.id).map (code_map prefs courses)) := by
          rw [List.map_map, List.map_map, List.forall₂_map_left_iff,
            List.forall₂_map_right_iff, List.forall₂_same]
          intro c hc
          rw [Function.comp_apply, Function.comp_apply,
            code_map_eq prefs courses hids c hc, course_valid_codes,
            List.dedup_eq_self.2 (hcodes c hc)]
          exact (((hrel c hc).map Slot.slot_code)).symm
        have heq := chainCount_eq tt _ _ hforall hmx2 [] [] [] hocc0 hchosen0
        rw [hdist, hcount, heq]

/-- C2 (counterexample): the codes C11 and A21 sit in opposite
mutual-exclusion groups but do not overlap in time; count_solutions
rejects the pair via `_check_clash` while count_distinct_solutions counts
it, so count_distinct_solutions exceeds count_solutions and the claimed
inequality (with identical validity criteria) is false. -/
theorem C2_distinct_count_counterexample :
    count_distinct_solutions sampleTiming defaultPrefs [courseC11, courseA21]
        100000 = 1 ∧
    count_solutions sampleTiming (build_slot_map sampleTiming defaultPrefs
        idShuffle false false [courseC11, courseA21]) [courseC11, courseA21]
        100000 = 0 ∧
    ¬ (count_distinct_solutions sampleTiming defaultPrefs [courseC11, courseA21]
        100000
      ≤ count_solutions sampleTiming (build_slot_map sampleTiming defaultPrefs
          idShuffle false false [courseC11, courseA21]) [courseC11, courseA21]
          100000) := by
  decide

theorem C2_distinct_count_witness :
    (([wCourse1, wCourse2].map Course.id).Nodup ∧
      (∀ c ∈ [wCourse1, wCourse2], (wMap c.id).Perm
        (c.slots.filter (fun s => !should_exclude_slot defaultPrefs s))) ∧
      (∀ c ∈ [wCourse1, wCourse2], ∀ u ∈ c.slots,
        avoids_mutual_groups u = true) ∧
      (∀ c ∈ [wCourse1, wCourse2], ((c.slots.filter
        (fun s => !should_exclude_slot defaultPrefs s)).map Slot.slot_code).Nodup)) ∧
    count_distinct_solutions sampleTiming defaultPrefs [wCourse1, wCourse2] 100000
      ≤ count_solutions sampleTiming wMap [wCourse1, wCourse2] 100000 ∧
    count_distinct_solutions sampleTiming defaultPrefs [wCourse1, wCourse2] 100000
      = count_solutions sampleTiming wMap [wCourse1, wCourse2] 100000 :=
  ⟨⟨by decide, by decide, by decide, by decide⟩,
    (C2_distinct_count_amended sampleTiming defaultPrefs [wCourse1, wCourse2] wMap
      100000 (by decide) (by decide) (by decide)).1,
    (C2_distinct_count_amended sampleTiming defaultPrefs [wCourse1, wCourse2] wMap
      100000 (by decide) (by decide) (by decide)).2 (by decide)⟩

/-- C6 (amended): the generator is not stateless — generate_ranked_pool
replaces the per-course candidate map by a rebuild that ignores the
preference filters and skips score sorting: the rebuilt list for a course
is a permutation of all its slots, whereas the initial build is a
permutation of the preference-filtered slots, so later calls reading
slot_map (such as count_solutions) can return different results after a
generate_ranked_pool call; entry points are deterministic only relative to
the current slot_map together with the supplied random draws. -/
theorem C6_slot_map_state_amended (tt : String → Option Timing)
    (prefs : GenerationPreferences) (shuffle : Nat → List Slot → List Slot)
    (courses : List Course) (cid : Nat) (c : Course)
    (hc : (courses.filter (fun x => x.id == cid)).getLast? = some c)
    (hshuf : ∀ l, (shuffle cid l).Perm l) :
    (build_slot_map tt prefs shuffle true true courses cid).Perm c.slots ∧
    (build_slot_map tt prefs shuffle false false courses cid).Perm
      (c.slots.filter (fun s => !should_exclude_slot prefs s)) := by
  constructor
  · rw [build_slot_map, hc]
    simp only [build_course_slots, if_true]
    exact hshuf c.slots
  · rw [build_slot_map, hc]
    simp only [build_course_slots, Bool.false_eq_true, if_false]
    exact (stableSortBy_perm _ _).trans (hshuf _)

theorem C6_slot_map_state_witness :
    (build_slot_map sampleTiming avoidPrefs idShuffle true true [avoidCourse]
      1).Perm avoidCourse.slots ∧
    (build_slot_map sampleTiming avoidPrefs idShuffle false false [avoidCourse]
      1).Perm (avoidCourse.slots.filter
        (fun s => !should_exclude_slot avoidPrefs s)) :=
  C6_slot_map_state_amended sampleTiming avoidPrefs idShuffle [avoidCourse] 1
    avoidCourse (by decide) (fun l => List.Perm.refl l)

/-- C6 (counterexample): with one course whose only slot has an avoided
faculty, the initial (preference-filtered) map is empty but the map left
behind by the generate_ranked_pool rebuild contains the slot, and
count_solutions flips from 0 to 1 — the per-course candidate map is not
unchanged across calls and identical repeated calls need not agree. -/
theorem C6_slot_map_state_counterexample :
    build_slot_map sampleTiming avoidPrefs idShuffle false false [avoidCourse] 1
      = [] ∧
    build_slot_map sampleTiming avoidPrefs idShuffle true true [avoidCourse] 1
      = [avoidSlot] ∧
    count_solutions sampleTiming (build_slot_map sampleTiming avoidPrefs idShuffle
      false false [avoidCourse]) [avoidCourse] 100000 = 0 ∧
    count_solutions sampleTiming (build_slot_map sampleTiming avoidPrefs idShuffle
      true true [avoidCourse]) [avoidCourse] 100000 = 1 := by
  decide

/-- C7: `_score_slot` is the mean of per-cell (time + faculty) scores
scaled by the credit weight, and under time_mode "morning" with no
exclusion, avoidance or soft-avoid flag applying, a resolvable cell scores
max(0, 115 - 15 * period) — 100 at period 1 and 10 at period 7. -/
theorem C7_scorer_morning :
    (∀ (tt : String → Option Timing) (prefs : GenerationPreferences) (slot : Slot),
      slot.get_individual_slots ≠ [] →
      score_slot tt prefs slot =
        ((slot.get_individual_slots.map (fun s =>
          cell_time_score tt prefs (effectiveTimeMode prefs) slot s
            + faculty_score prefs slot)).sum
          / (slot.get_individual_slots.length : Rat)) * credit_weight slot) ∧
    (∀ (tt : String → Option Timing) (prefs : GenerationPreferences) (slot : Slot)
      (s : String) (t : Timing),
      prefs.time_mode = "morning" →
      prefs.exclude_slots.contains s = false →
      (match slot.faculty with
       | some fname => prefs.avoided_faculties.contains fname
       | none => false) = false →
      prefs.avoid_early_morning = false →
      prefs.avoid_late_evening = false →
      tt s = some t →
      (cell_time_score tt prefs (effectiveTimeMode prefs) slot s
          = ((max 0 (115 - 15 * t.period) : Int) : Rat) ∧
        (t.period = 1 →
          cell_time_score tt prefs (effectiveTimeMode prefs) slot s = 100) ∧
        (t.period = 7 →
          cell_time_score tt prefs (effectiveTimeMode prefs) slot s = 10))) := by
  constructor
  · intro tt prefs slot hne
    rw [score_slot]
    have hie : ¬(slot.get_individual_slots.isEmpty = true) := by
      rw [List.isEmpty_iff]
      exact hne
    rw [if_neg hie]
  · intro tt prefs slot s t hmode hexcl havd hearly hlate hts
    have hmode2 : effectiveTimeMode prefs = "morning" := by
      rw [effectiveTimeMode, hmode]
      rfl
    have hmain : cell_time_score tt prefs (effectiveTimeMode prefs) slot s
        = ((max 0 (115 - 15 * t.period) : Int) : Rat) := by
      rw [cell_time_score, hexcl, havd, hmode2]
      simp only [Bool.false_eq_true, if_false, hts, hearly, hlate,
        Bool.false_and]
      rfl
    refine ⟨hmain, ?_, ?_⟩
    · intro hp
      rw [hmain, hp]
      norm_num
    · intro hp
      rw [hmain, hp]
      norm_num

theorem C7_scorer_morning_witness :
    (score_slot sampleTiming morningPrefs mSlot1 =
      ((mSlot1.get_individual_slots.map (fun s =>
        cell_time_score sampleTiming morningPrefs (effectiveTimeMode morningPrefs)
          mSlot1 s + faculty_score morningPrefs mSlot1)).sum
        / (mSlot1.get_individual_slots.length : Rat)) * credit_weight mSlot1) ∧
    cell_time_score sampleTiming morningPrefs (effectiveTimeMode morningPrefs)
      mSlot1 "X1" = 100 ∧
    cell_time_score sampleTiming morningPrefs (effectiveTimeMode morningPrefs)
      mSlot7 "X7" = 10 :=
  ⟨C7_scorer_morning.1 sampleTiming morningPrefs mSlot1 (by decide),
    (C7_scorer_morning.2 sampleTiming morningPrefs mSlot1 "X1" ⟨"MON", 1⟩
      (by decide) (by decide) (by decide) (by decide) (by decide)
      (by decide)).2.1 rfl,
    (C7_scorer_morning.2 sampleTiming morningPrefs mSlot7 "X7" ⟨"MON", 7⟩
      (by decide) (by decide) (by decide) (by decide) (by decide)
      (by decide)).2.2 rfl⟩

/-- C9: in `_score_slot`, only preference-list ranks 0, 1 and 2 contribute
(1000, 800 and 600); a faculty listed at rank 3 or beyond contributes 0,
exactly like an unlisted faculty, and replacing the preference
list of the course by one not containing that faculty leaves the slot score unchanged. -/
theorem C9_faculty_rank_cutoff (prefs : GenerationPreferences) (slot : Slot)
    (cid : Nat) (fname : String)
    (hne : prefs.course_faculty_preferences.isEmpty = false)
    (hcid : slot.course_id = some cid) (hcid0 : cid ≠ 0)
    (hf : slot.faculty = some fname)
    (hmem : fname ∈ lookupCoursePrefs prefs cid)
    (hrank : 3 ≤ (lookupCoursePrefs prefs cid).indexOf fname) :
    faculty_score prefs slot = 0 ∧
    (∀ prefs2 : GenerationPreferences, fname ∉ lookupCoursePrefs prefs2 cid →
      faculty_score prefs2 slot = 0) ∧
    (∀ (prefs3 : GenerationPreferences),
      prefs3.course_faculty_preferences.isEmpty = false →
      fname ∈ lookupCoursePrefs prefs3 cid →
      faculty_score prefs3 slot =
        (if (lookupCoursePrefs prefs3 cid).indexOf fname = 0 then 1000
          else if (lookupCoursePrefs prefs3 cid).indexOf fname = 1 then 800
          else if (lookupCoursePrefs prefs3 cid).indexOf fname = 2 then 600
          else 0)) ∧
    (∀ (tt : String → Option Timing) (l2 : List (Nat × List String)),
      l2.isEmpty = false →
      fname ∉ (l2.lookup cid).getD [] →
      score_slot tt prefs slot
        = score_slot tt { prefs with course_faculty_preferences := l2 } slot) := by
  have htable : ∀ (prefs3 : GenerationPreferences),
      prefs3.course_faculty_preferences.isEmpty = false →
      fname ∈ lookupCoursePrefs prefs3 cid →
      faculty_score prefs3 slot =
        (if (lookupCoursePrefs prefs3 cid).indexOf fname = 0 then 1000
          else if (lookupCoursePrefs prefs3 cid).indexOf fname = 1 then 800
          else if (lookupCoursePrefs prefs3 cid).indexOf fname = 2 then 600
          else 0) := by
    intro prefs3 hne3 hmem3
    rw [faculty_score, hne3]
    simp only [Bool.false_eq_true, if_false, hcid, hf]
    rw [if_neg hcid0]
    have hcont : (lookupCoursePrefs prefs3 cid).contains fname = true := by
      rw [contains_iff_mem]
      exact hmem3
    rw [hcont]
    simp only [if_true]
  have hzero : faculty_score prefs slot = 0 := by
    rw [htable prefs hne hmem]
    have h0 : ¬((lookupCoursePrefs prefs cid).indexOf fname = 0) := by omega
    have h1 : ¬((lookupCoursePrefs prefs cid).indexOf fname = 1) := by omega
    have h2 : ¬((lookupCoursePrefs prefs cid).indexOf fname = 2) := by omega
    rw [if_neg h0, if_neg h1, if_neg h2]
  have hnolist : ∀ prefs2 : GenerationPreferences,
      fname ∉ lookupCoursePrefs prefs2 cid → faculty_score prefs2 slot = 0 := by
    intro prefs2 hnm
    rw [faculty_score]
    by_cases hne2 : prefs2.course_faculty_preferences.isEmpty
    · rw [if_pos hne2]
    · rw [if_neg hne2]
      simp only [hcid, hf]
      rw [if_neg hcid0]
      have hcont : (lookupCoursePrefs prefs2 cid).contains fname = false := by
        rw [Bool.eq_false_iff]
        intro hcontra
        exact hnm (contains_iff_mem.1 hcontra)
      rw [hcont]
      simp only [Bool.false_eq_true, if_false]
  refine ⟨hzero, hnolist, htable, ?_⟩
  intro tt l2 hl2 hnm
  have hzero2 : faculty_score { prefs with course_faculty_preferences := l2 } slot
      = 0 := hnolist _ hnm
  rw [score_slot, score_slot, hzero, hzero2]
  rfl

theorem C9_faculty_rank_cutoff_witness :
    faculty_score rankPrefs rankSlot = 0 ∧
    score_slot sampleTiming rankPrefs rankSlot
      = score_slot sampleTiming
          { rankPrefs with course_faculty_preferences := rankListNo } rankSlot :=
  ⟨(C9_faculty_rank_cutoff rankPrefs rankSlot 1 "P3" (by decide) (by decide)
      (by decide) (by decide) (by decide) (by decide)).1,
    (C9_faculty_rank_cutoff rankPrefs rankSlot 1 "P3" (by decide) (by decide)
      (by decide) (by decide) (by decide) (by decide)).2.2.2 sampleTiming
      rankListNo (by decide) (by decide)⟩

/-- C10: generate_diverse accepts the first complete solution found
unconditionally (the acceptance test is diversity at least the current bar
OR no solutions accepted yet), so whenever the first backtracking call of
the loop produces a solution, the returned list is non-empty — for every
min_diversity, including values above 100. -/
theorem C10_first_solution_accepted (tt : String → Option Timing)
    (prefs : GenerationPreferences) (courses : List Course)
    (baseMap : Nat → List Slot) (plan : DiversePlan) (rest : List DiversePlan)
    (limit : Nat) (mind : Rat) (r : List Slot) (att1 : Nat)
    (hne : courses.isEmpty = false) (hl : 0 < limit)
    (hbt : diverseBT tt (if should_shuffle_slots prefs then plan.shuffledMap
        else baseMap) (limit * 50) plan.order [] [] 0 = (some r, att1)) :
    1 ≤ (generate_diverse tt prefs courses baseMap (plan :: rest) limit
      mind).length := by
  rw [generate_diverse]
  have hne2 : ¬(courses.isEmpty = true) := by
    rw [hne]
    exact Bool.false_ne_true
  rw [if_neg hne2, diverseLoop]
  have hstop : ¬(limit ≤ (⟨[], [], 0, mind, 0⟩ : DivState).solutions.length
      ∨ limit * 50 ≤ (⟨[], [], 0, mind, 0⟩ : DivState).attempts) := by
    simp only [List.length_nil]
    omega
  rw [if_neg hstop]
  simp only [hbt]
  have hdup : ¬((r.map Slot.id).toFinset ∈ (⟨[], [], 0, mind, 0⟩ :
      DivState).seen) := List.not_mem_nil _
  rw [if_neg hdup]
  have hacc : ((if 20 < (⟨[], [], 0, mind, 0⟩ : DivState).streak
      then max 5 ((⟨[], [], 0, mind, 0⟩ : DivState).current_min - 5)
      else (⟨[], [], 0, mind, 0⟩ : DivState).current_min)
      ≤ calculate_diversity_score tt r (⟨[], [], 0, mind, 0⟩ :
        DivState).solutions
      ∨ (⟨[], [], 0, mind, 0⟩ : DivState).solutions.isEmpty = true) :=
    Or.inr rfl
  rw [if_pos hacc]
  refine le_trans ?_ (diverseLoop_length_mono tt prefs baseMap limit (limit * 50)
    rest _)
  simp

theorem C10_first_solution_accepted_witness :
    1 ≤ (generate_diverse sampleTiming defaultPrefs [dCourse] dMap [dPlan] 1
      150).length :=
  C10_first_solution_accepted sampleTiming defaultPrefs [dCourse] dMap dPlan []
    1 150 [dSlot] 1 (by decide) (by decide) (by decide)
